import Mathlib

/-!
# A shallow embedding of `app/server.go`

The server reads one request per connection into a 1024-byte buffer, parses it with
`getRequest`, chooses a route in `handleConnection` and writes the response bytes back.

* A Go `string` and a Go `[]byte` are both sequences of bytes; the embedding uses
  `List Nat`, a byte being a value below 256.
* A Go run-time panic (index out of range, slice bounds out of range) is an explicit
  `Except.error`; a panic in a connection goroutine ends the whole process.
* The file system is the explicit state `FileSystem`; the storage directory
  (`directoryArg`, read once from the command line) is a parameter.
* The library functions `strings.Split`, `strings.Join`, `strings.TrimSpace`,
  `strconv.Atoi` and `fmt.Sprintf("%d")` are written out after their Go definitions:
  `TrimSpace` removes the white space of `unicode.IsSpace` in its UTF-8 encodings, and
  `Atoi` keeps the fast path for short strings and the digit loop of `ParseUint`, which
  reports an overflow as soon as it meets it.
* `handleConnection` passes the whole 1024-byte buffer to `getRequest`, so the request
  text is followed by zero bytes unless the read filled the buffer.
-/

namespace HttpServer

/-- A Go `string` or `[]byte`: a sequence of bytes. -/
abbrev Bytes := List Nat

/-- The bytes of an ASCII string literal. -/
def ascii (s : String) : Bytes := s.data.map Char.toNat

deriving instance DecidableEq for Except

/-- The two run-time panics the program can raise. -/
inductive Panic where
  | indexOutOfRange
  | sliceBounds
  deriving DecidableEq, Repr

/-! ## Library functions -/

/-- Put a byte in front of the first piece of a list of pieces. -/
def consHead (c : Nat) : List Bytes → List Bytes
  | [] => [[c]]
  | p :: ps => (c :: p) :: ps

/-- The worker of `strings.Split` for a non-empty separator: scan left to right, cut at
every leftmost non-overlapping occurrence of `sep`; `skip` counts the bytes of a matched
separator that are still to be passed over. -/
def splitGo (sep : Bytes) : Bytes → Nat → List Bytes
  | [], _ => [[]]
  | _ :: cs, skip + 1 => splitGo sep cs skip
  | c :: cs, 0 =>
    if sep.isPrefixOf (c :: cs) then [] :: splitGo sep cs (sep.length - 1)
    else consHead c (splitGo sep cs 0)

/-- The function `strings.Split(s, sep)` for a non-empty `sep` (the program only uses
the separators CRLF, space, slash and colon). -/
def Split (s sep : Bytes) : List Bytes := splitGo sep s 0

/-- The function `strings.Join(elems, sep)`. -/
def Join : List Bytes → Bytes → Bytes
  | [], _ => []
  | [a], _ => a
  | a :: b :: rest, sep => a ++ sep ++ Join (b :: rest) sep

/-- The one-byte white space of `unicode.IsSpace`: tab, LF, VT, FF, CR and space. -/
def isAsciiSpace (c : Nat) : Bool :=
  c == 9 || c == 10 || c == 11 || c == 12 || c == 13 || c == 32

/-- The third byte of the white-space runes U+2000..U+200A, U+2028, U+2029, U+202F
(first two bytes E2 80). -/
def isSpaceE280 (c : Nat) : Bool :=
  (0x80 ≤ c && c ≤ 0x8A) || c == 0xA8 || c == 0xA9 || c == 0xAF

/-- The function `strings.TrimLeftFunc(s, unicode.IsSpace)`: remove leading runes that
are white space. Go decodes UTF-8 and rejects overlong forms, so a rune is white space
exactly when its bytes are one of: an ASCII space byte, C2 85, C2 A0, E1 9A 80,
E2 80 (80..8A, A8, A9, AF), E2 81 9F, E3 80 80. -/
def trimLeftSpace : Bytes → Bytes
  | [] => []
  | c :: rest =>
    if isAsciiSpace c then trimLeftSpace rest
    else match rest with
      | d :: e :: rest3 =>
        if c = 0xC2 ∧ (d = 0x85 ∨ d = 0xA0) then trimLeftSpace (e :: rest3)
        else if (c = 0xE1 ∧ d = 0x9A ∧ e = 0x80) ∨ (c = 0xE2 ∧ d = 0x80 ∧ isSpaceE280 e = true)
            ∨ (c = 0xE2 ∧ d = 0x81 ∧ e = 0x9F) ∨ (c = 0xE3 ∧ d = 0x80 ∧ e = 0x80) then
          trimLeftSpace rest3
        else c :: rest
      | [d] => if c = 0xC2 ∧ (d = 0x85 ∨ d = 0xA0) then [] else c :: rest
      | [] => c :: rest

/-- The scan of `strings.TrimRightFunc(s, unicode.IsSpace)` on the reversed string: the
last rune is white space exactly when the string ends with one of the encodings listed
at `trimLeftSpace` (here read backwards). -/
def trimRevSpace : Bytes → Bytes
  | [] => []
  | c :: rest =>
    if isAsciiSpace c then trimRevSpace rest
    else match rest with
      | d :: e :: rest3 =>
        if d = 0xC2 ∧ (c = 0x85 ∨ c = 0xA0) then trimRevSpace (e :: rest3)
        else if (e = 0xE1 ∧ d = 0x9A ∧ c = 0x80) ∨ (e = 0xE2 ∧ d = 0x80 ∧ isSpaceE280 c = true)
            ∨ (e = 0xE2 ∧ d = 0x81 ∧ c = 0x9F) ∨ (e = 0xE3 ∧ d = 0x80 ∧ c = 0x80) then
          trimRevSpace rest3
        else c :: rest
      | [d] => if d = 0xC2 ∧ (c = 0x85 ∨ c = 0xA0) then [] else c :: rest
      | [] => c :: rest

/-- The function `strings.TrimRightFunc(s, unicode.IsSpace)`. -/
def trimRightSpace (s : Bytes) : Bytes := (trimRevSpace s.reverse).reverse

/-- The function `strings.TrimSpace(s)`: leading and trailing white space removed. -/
def TrimSpace (s : Bytes) : Bytes := trimRightSpace (trimLeftSpace s)

/-- Whether `sub` occurs in `s` (`strings.Contains`). -/
def Contains (s sub : Bytes) : Bool :=
  match s with
  | [] => sub.isEmpty
  | c :: cs => sub.isPrefixOf (c :: cs) || Contains cs sub

/-- An ASCII decimal digit. -/
def isDigit (c : Nat) : Bool := 48 ≤ c && c ≤ 57

/-- The digit loop of the fast path of `strconv.Atoi`: `none` at the first byte that is
not a digit. -/
def atoiFast : Bytes → Nat → Option Nat
  | [], n => some n
  | c :: cs, n => if isDigit c then atoiFast cs (n * 10 + (c - 48)) else none

/-- The errors of `strconv`. -/
inductive NumError where
  | invalid
  | range
  deriving DecidableEq, Repr

/-- The largest `uint64`. -/
def maxUint64 : Nat := 2 ^ 64 - 1

/-- The digit loop of `strconv.ParseUint(s, 10, 64)`: it returns at the first event met
from the left, a byte that is not a digit (value 0, syntax error) or an overflow of
`uint64` (value `maxUint64`, range error). -/
def parseUintLoop : Bytes → Nat → Nat × Option NumError
  | [], n => (n, none)
  | c :: cs, n =>
    if !isDigit c then (0, some NumError.invalid)
    else if n ≥ maxUint64 / 10 + 1 then (maxUint64, some NumError.range)
    else
      let n10 := (n * 10) % 2 ^ 64
      let n1 := (n10 + (c - 48)) % 2 ^ 64
      if n1 < n10 ∨ n1 > maxUint64 then (maxUint64, some NumError.range)
      else parseUintLoop cs n1

/-- The function `strconv.ParseUint(s, 10, 64)`. -/
def ParseUint (s : Bytes) : Nat × Option NumError :=
  if s = [] then (0, some NumError.invalid) else parseUintLoop s 0

/-- The function `strconv.ParseInt(s, 10, 0)` on a 64-bit platform. -/
def ParseInt (s : Bytes) : Int × Option NumError :=
  match s with
  | [] => (0, some NumError.invalid)
  | c :: cs =>
    let neg := c == 45
    let digits := if c == 43 || c == 45 then cs else c :: cs
    let r := ParseUint digits
    if r.2 = some NumError.invalid then (0, some NumError.invalid)
    else if !neg ∧ r.1 ≥ 2 ^ 63 then ((2 : Int) ^ 63 - 1, some NumError.range)
    else if neg ∧ r.1 > 2 ^ 63 then (-(2 : Int) ^ 63, some NumError.range)
    else (if neg then -(r.1 : Int) else (r.1 : Int), none)

/-- The function `strconv.Atoi(s)` on a 64-bit platform: value and error. -/
def AtoiErr (s : Bytes) : Int × Option NumError :=
  if 0 < s.length ∧ s.length < 19 then
    match s with
    | [] => (0, some NumError.invalid)
    | c :: cs =>
      let digits := if c == 45 || c == 43 then cs else c :: cs
      if digits.length < 1 then (0, some NumError.invalid)
      else match atoiFast digits 0 with
        | none => (0, some NumError.invalid)
        | some n => (if c == 45 then -(n : Int) else (n : Int), none)
  else ParseInt s

/-- The value of `strconv.Atoi(s)`, the error dropped as in `contentLength, _ := ...`. -/
def Atoi (s : Bytes) : Int := (AtoiErr s).1

/-- The decimal digits of `n`, least significant first, by repeated division; `fuel`
bounds the number of digits. -/
def decimalRev : Nat → Nat → Bytes
  | 0, _ => []
  | fuel + 1, n => if n < 10 then [48 + n] else (48 + n % 10) :: decimalRev fuel (n / 10)

/-- The text of `fmt.Sprintf("%d", n)` for a non-negative `n`. -/
def formatInt (n : Nat) : Bytes := (decimalRev (n + 1) n).reverse

/-! ## The program -/

/-- The header map `map[string]string`: an association list with at most one entry per
key. -/
abbrev Headers := List (Bytes × Bytes)

/-- The map read `headers[key]` with its `ok` flag. -/
def Headers.get (h : Headers) (key : Bytes) : Option Bytes :=
  match h with
  | [] => none
  | (k, v) :: rest => if k = key then some v else Headers.get rest key

/-- The map write `headers[key] = value`. -/
def Headers.set (h : Headers) (key value : Bytes) : Headers :=
  (key, value) :: h.filter (fun p => decide (p.1 ≠ key))

/-- The record `request` of the program; `content` is `none` for a nil slice. -/
structure request where
  method : Bytes
  path : Bytes
  path_steps : List Bytes
  headers : Headers
  content : Option Bytes
  deriving DecidableEq, Repr

/-- The canned response 200. -/
def responseOkString : Bytes := ascii "HTTP/1.1 200 OK\r\n\r\n"

/-- The canned response 201. -/
def responseCreatedString : Bytes := ascii "HTTP/1.1 201 Created\r\n\r\n"

/-- The canned response 404. -/
def responseNotFoundString : Bytes := ascii "HTTP/1.1 404 Not Found\r\n\r\n"

/-- The bytes of `responseOkString`. -/
def responseOkByteArray : Bytes := responseOkString

/-- The bytes of `responseCreatedString`. -/
def responseCreatedByteArray : Bytes := responseCreatedString

/-- The bytes of `responseNotFoundString`. -/
def responseNotFoundByteArray : Bytes := responseNotFoundString

/-- The second path segment of the echo route. -/
def echoPathStart : Bytes := ascii "echo"

/-- The second path segment of the file routes. -/
def filesPathStart : Bytes := ascii "files"

/-- The index expression `xs[i]`, which panics when `i` is out of range. -/
def index {α : Type} (xs : List α) (i : Nat) : Except Panic α :=
  match xs[i]? with
  | some x => Except.ok x
  | none => Except.error Panic.indexOutOfRange

/-- The slice expression `xs[lo:hi]`, which panics unless `lo ≤ hi ≤ len(xs)`. (The
slices of the program have capacity equal to length, except the body in `getRequest`,
see there.) -/
def slice {α : Type} (xs : List α) (lo hi : Nat) : Except Panic (List α) :=
  if lo ≤ hi ∧ hi ≤ xs.length then Except.ok ((xs.drop lo).take (hi - lo))
  else Except.error Panic.sliceBounds

/-- The position of the first element satisfying `p`, as a `for i, row := range` loop
with `break` finds it. -/
def firstIndex (p : Bytes → Bool) : List Bytes → Option Nat
  | [] => none
  | r :: rs => if p r then some 0 else (firstIndex p rs).map (fun i => i + 1)

/-- The function `parseHeaders`, the loop as a left fold over the lines. -/
def parseHeaders (rawHeaders : List Bytes) : Headers :=
  rawHeaders.foldl (fun headers header =>
    if header.length = 0 ∨ ¬ Contains header (ascii ":") = true then headers
    else
      let splitHeader := Split header (ascii ":")
      let key := splitHeader.headD []
      let value := TrimSpace (Join (splitHeader.drop 1) [])
      headers.set key value) []

/-- The function `getPathSteps`. -/
def getPathSteps (path : Bytes) : List Bytes := Split (TrimSpace path) (ascii "/")

/-- The first loop of `getRequest`: one more than the position, within
`requestRows[1:]`, of the first non-empty row; 0 when there is none. -/
def startOfHeadersIndex (requestRows : List Bytes) : Nat :=
  match firstIndex (fun row => row.length != 0) (requestRows.drop 1) with
  | some i => i + 1
  | none => 0

/-- The second loop of `getRequest`: the index of the first empty row from `start` on;
`len(requestRows) - 1` when there is none. -/
def endOfHeadersIndex (requestRows : List Bytes) (start : Nat) : Nat :=
  match firstIndex (fun row => row.length == 0) (requestRows.drop start) with
  | some i => i + start
  | none => requestRows.length - 1

/-- The block `if h, ok := parsedHeaders["Content-Length"]; ok` of `getRequest`: the
request content, `none` for the nil slice. `body[:contentLength]` is taken to panic
whenever `contentLength` is negative or exceeds `len(body)`. Go bounds the slice by
`cap(body)`, the allocation size of `[]byte(string)`: for a length above `len(body)` and
up to that capacity the program returns the body followed by zero bytes where this
definition gives the panic; the two agree for every length up to `len(body)` and for
every length above the capacity. -/
def requestContent (parsedHeaders : Headers) (requestRows : List Bytes) (endIndex : Nat) :
    Except Panic (Option Bytes) :=
  match parsedHeaders.get (ascii "Content-Length") with
  | none => Except.ok none
  | some h =>
    let contentLength := Atoi h
    match slice requestRows endIndex requestRows.length with
    | Except.error e => Except.error e
    | Except.ok rest =>
      let body := Join rest []
      if contentLength < 0 then Except.error Panic.sliceBounds
      else
        match slice body 0 contentLength.toNat with
        | Except.error e => Except.error e
        | Except.ok content => Except.ok (some content)

/-- The function `getRequest`. The panics are raised in the order of the source: the
body slice first, the request-line token `firstRowContents[1]` of the final composite
literal after it. -/
def getRequest (requestString : Bytes) : Except Panic request :=
  let requestRows := Split requestString (ascii "\r\n")
  match index requestRows 0 with
  | Except.error e => Except.error e
  | Except.ok row0 =>
    let firstRowContents := Split row0 (ascii " ")
    let start := startOfHeadersIndex requestRows
    let stop := endOfHeadersIndex requestRows start
    match slice requestRows start stop with
    | Except.error e => Except.error e
    | Except.ok rawHeaders =>
      let parsedHeaders := parseHeaders rawHeaders
      match requestContent parsedHeaders requestRows stop with
      | Except.error e => Except.error e
      | Except.ok content =>
        match index firstRowContents 0 with
        | Except.error e => Except.error e
        | Except.ok method =>
          match index firstRowContents 1 with
          | Except.error e => Except.error e
          | Except.ok path =>
            Except.ok
              { method := method
                path := path
                path_steps := getPathSteps path
                headers := parsedHeaders
                content := content }

/-- The function `isEchoPath`. -/
def isEchoPath (path_steps : List Bytes) : Bool :=
  decide (path_steps.length > 1) && path_steps[1]? == some echoPathStart

/-- The function `isReadFilesPath`. -/
def isReadFilesPath (req : request) : Bool :=
  decide (req.path_steps.length > 1) && req.path_steps[1]? == some filesPathStart
    && req.method == ascii "GET"

/-- The function `isWriteFilesPath`. -/
def isWriteFilesPath (req : request) : Bool :=
  decide (req.path_steps.length > 1) && req.path_steps[1]? == some filesPathStart
    && req.method == ascii "POST"

/-- The function `getResponseWithContent`; `len(contentString)` is the byte length. -/
def getResponseWithContent (contentString : Bytes) : Bytes :=
  ascii "HTTP/1.1 200 OK\r\nContent-Type: text/plain\r\nContent-Length: "
    ++ formatInt contentString.length ++ ascii "\r\n\r\n" ++ contentString ++ ascii "\r\n"

/-- The function `getResponseWithFile`. -/
def getResponseWithFile (file : Bytes) : Bytes :=
  let responseString :=
    ascii "HTTP/1.1 200 OK\r\nContent-Type: application/octet-stream\r\nContent-Length: "
      ++ formatInt file.length ++ ascii "\r\n\r\n"
  responseString ++ file

/-- The function `getEchoResponse`. -/
def getEchoResponse (path_steps : List Bytes) : Except Panic Bytes :=
  match slice path_steps 2 path_steps.length with
  | Except.error e => Except.error e
  | Except.ok rest => Except.ok (getResponseWithContent (Join rest (ascii "/")))

/-- The file system as the program sees it: `readFile p` is the result of
`os.ReadFile(p)` (`none` for an error) and `canCreate p` tells whether `os.Create(p)`
succeeds. -/
structure FileSystem where
  readFile : Bytes → Option Bytes
  canCreate : Bytes → Bool

/-- The file system after `os.Create(p)` succeeded and `content` was written: `p` now
reads as `content`. -/
def FileSystem.write (fs : FileSystem) (p content : Bytes) : FileSystem :=
  { readFile := fun q => if q = p then some content else fs.readFile q
    canCreate := fs.canCreate }

/-- The function `getFile`: `none` stands for a non-nil error. -/
def getFile (fs : FileSystem) (folder fileName : Bytes) : Option Bytes :=
  if folder.length = 0 then none
  else fs.readFile (folder ++ ascii "/" ++ fileName)

/-- The function `getReadFileResponse`. -/
def getReadFileResponse (directoryArg : Bytes) (fs : FileSystem) (path_steps : List Bytes) :
    Except Panic Bytes :=
  match index path_steps 2 with
  | Except.error e => Except.error e
  | Except.ok fileName =>
    match getFile fs directoryArg fileName with
    | none => Except.ok responseNotFoundByteArray
    | some file => Except.ok (getResponseWithFile file)

/-- The function `getUserAgentResponse`. -/
def getUserAgentResponse (headers : Headers) : Bytes :=
  match headers.get (ascii "User-Agent") with
  | some content => getResponseWithContent content
  | none => []

/-- The function `writeFile`: the flag is `true` when the returned error is nil; the
bytes written are `req.content` (nothing for a nil slice). -/
def writeFile (fs : FileSystem) (folder : Bytes) (req : request) :
    Except Panic (Bool × FileSystem) :=
  if folder.length = 0 then Except.ok (false, fs)
  else
    match index req.path_steps 2 with
    | Except.error e => Except.error e
    | Except.ok name =>
      if fs.canCreate (folder ++ ascii "/" ++ name) then
        Except.ok (true, fs.write (folder ++ ascii "/" ++ name) (req.content.getD []))
      else Except.ok (false, fs)

/-- The `switch true` of `handleConnection`: the response bytes and the file system
after the request, or the panic. -/
def dispatch (directoryArg : Bytes) (fs : FileSystem) (req : request) :
    Except Panic (Bytes × FileSystem) :=
  if req.path = ascii "/" then Except.ok (responseOkByteArray, fs)
  else if isEchoPath req.path_steps then
    match getEchoResponse req.path_steps with
    | Except.error e => Except.error e
    | Except.ok response => Except.ok (response, fs)
  else if isReadFilesPath req then
    match getReadFileResponse directoryArg fs req.path_steps with
    | Except.error e => Except.error e
    | Except.ok response => Except.ok (response, fs)
  else if isWriteFilesPath req then
    match writeFile fs directoryArg req with
    | Except.error e => Except.error e
    | Except.ok r => Except.ok (responseCreatedByteArray, r.2)
  else if req.path = ascii "/user-agent" then
    Except.ok (getUserAgentResponse req.headers, fs)
  else Except.ok (responseNotFoundByteArray, fs)

/-- The buffer `make([]byte, 1024)` after `conn.Read` delivered `data`: at most 1024
bytes of `data`, the rest zero. -/
def readBuffer (data : Bytes) : Bytes :=
  data.take 1024 ++ List.replicate (1024 - (data.take 1024).length) 0

/-- The function `handleConnection` from the bytes delivered by the read to the bytes
written back. -/
def handleConnection (directoryArg : Bytes) (fs : FileSystem) (data : Bytes) :
    Except Panic (Bytes × FileSystem) :=
  match getRequest (readBuffer data) with
  | Except.error e => Except.error e
  | Except.ok req => dispatch directoryArg fs req

/-- The response bytes of a handled request, the file system dropped. -/
def responseBytes (r : Except Panic (Bytes × FileSystem)) : Except Panic Bytes :=
  match r with
  | Except.error e => Except.error e
  | Except.ok p => Except.ok p.1

/-- Two connections handled one after the other, the second on the file system the first
left behind: the two responses. -/
def handleTwo (directoryArg : Bytes) (fs : FileSystem) (first second : Bytes) :
    Except Panic (Bytes × Bytes) :=
  match handleConnection directoryArg fs first with
  | Except.error e => Except.error e
  | Except.ok r1 =>
    match handleConnection directoryArg r1.2 second with
    | Except.error e => Except.error e
    | Except.ok r2 => Except.ok (r1.1, r2.1)

/-- A file system without any file in which no file can be created. -/
def emptyFS : FileSystem :=
  { readFile := fun _ => none
    canCreate := fun _ => false }

/-- A writable file system that holds the single file `/tmp/a` with content `hello`. -/
def sampleFS : FileSystem :=
  { readFile := fun p => if p = ascii "/tmp/a" then some (ascii "hello") else none
    canCreate := fun _ => true }

/-- The number written by a string of decimal digits, most significant first. -/
def decimalValue (digits : Bytes) : Nat :=
  digits.foldl (fun n c => n * 10 + (c - 48)) 0

/-- The function `strings.Cut(s, sep)`: the text before and after the first occurrence
of `sep`, used to read a response back: the header block is what precedes the first
blank line. -/
def Cut (sep : Bytes) : Bytes → Option (Bytes × Bytes)
  | [] => none
  | c :: cs =>
    if sep.isPrefixOf (c :: cs) then some ([], (c :: cs).drop sep.length)
    else (Cut sep cs).map (fun p => (c :: p.1, p.2))

/-- The length a header block declares: the decimal number of its first line of the
form `Content-Length: <digits>`. -/
def declaredContentLength (head : Bytes) : Option Nat :=
  (Split head (ascii "\r\n")).findSome? (fun line =>
    if (ascii "Content-Length: ").isPrefixOf line = true
        ∧ (line.drop 16).all isDigit = true ∧ line.drop 16 ≠ [] then
      some (decimalValue (line.drop 16))
    else none)

/-- Whether the string begins with a white-space rune, in the encodings listed at
`trimLeftSpace`. -/
def startsWithSpace : Bytes → Bool
  | [] => false
  | c :: rest =>
    isAsciiSpace c ||
    match rest with
    | d :: e :: _ =>
      decide (c = 0xC2 ∧ (d = 0x85 ∨ d = 0xA0))
        || decide ((c = 0xE1 ∧ d = 0x9A ∧ e = 0x80) ∨ (c = 0xE2 ∧ d = 0x80 ∧ isSpaceE280 e = true)
            ∨ (c = 0xE2 ∧ d = 0x81 ∧ e = 0x9F) ∨ (c = 0xE3 ∧ d = 0x80 ∧ e = 0x80))
    | [d] => decide (c = 0xC2 ∧ (d = 0x85 ∨ d = 0xA0))
    | [] => false

/-- The line `key: value` written for an entry of the header map. -/
def serializeHeader (entry : Bytes × Bytes) : Bytes := entry.1 ++ ascii ": " ++ entry.2

/-! ## Basic facts about the parser and the dispatch -/

theorem decimalValue_append_singleton (l : Bytes) (c : Nat) :
    decimalValue (l ++ [c]) = decimalValue l * 10 + (c - 48) := by
  simp [decimalValue, List.foldl_append]

theorem decimalRev_spec (fuel n : Nat) (h : n < fuel) :
    decimalValue (decimalRev fuel n).reverse = n
      ∧ (∀ c ∈ decimalRev fuel n, isDigit c = true)
      ∧ decimalRev fuel n ≠ [] := by
  induction fuel generalizing n with
  | zero => omega
  | succ fuel ih =>
    unfold decimalRev
    by_cases hn : n < 10
    · rw [if_pos hn]
      refine ⟨?_, ?_, by simp⟩
      · simp [decimalValue]
      · intro c hc
        simp only [List.mem_singleton] at hc
        subst hc
        simp only [isDigit, Bool.and_eq_true, decide_eq_true_eq]
        omega
    · rw [if_neg hn]
      obtain ⟨hv, hd, -⟩ := ih (n / 10) (by omega)
      refine ⟨?_, ?_, by simp⟩
      · rw [List.reverse_cons, decimalValue_append_singleton, hv]
        omega
      · intro c hc
        rcases List.mem_cons.mp hc with hc | hc
        · subst hc
          simp only [isDigit, Bool.and_eq_true, decide_eq_true_eq]
          omega
        · exact hd c hc

/-- The text written for `%d` is a non-empty string of decimal digits whose value is the
number formatted. -/
theorem formatInt_spec (n : Nat) :
    decimalValue (formatInt n) = n ∧ (∀ c ∈ formatInt n, isDigit c = true)
      ∧ formatInt n ≠ [] := by
  obtain ⟨hv, hd, hne⟩ := decimalRev_spec (n + 1) n (by omega)
  refine ⟨hv, ?_, ?_⟩
  · intro c hc
    exact hd c (List.mem_reverse.mp hc)
  · simpa [formatInt] using hne


theorem ascii_crlf : ascii "\r\n" = [13, 10] := by decide

theorem ascii_blank : ascii "\r\n\r\n" = [13, 10, 13, 10] := by decide

theorem ascii_slash : ascii "/" = [47] := by decide

theorem ascii_space : ascii " " = [32] := by decide

theorem ascii_colon : ascii ":" = [58] := by decide

theorem splitGo_ne_nil (sep s : Bytes) (skip : Nat) : splitGo sep s skip ≠ [] := by
  induction s generalizing skip with
  | nil => simp [splitGo]
  | cons c cs ih =>
    cases skip with
    | succ k => simpa [splitGo] using ih k
    | zero =>
      unfold splitGo
      split
      · simp
      · cases h : splitGo sep cs 0 <;> simp [consHead]

/-- Splitting on a one-byte separator cuts at its first occurrence. -/
theorem Split_byte_append (c : Nat) (a b : Bytes) (h : c ∉ a) :
    Split (a ++ c :: b) [c] = a :: Split b [c] := by
  unfold Split
  induction a with
  | nil => simp [splitGo, List.isPrefixOf]
  | cons x a ih =>
    have hx : c ≠ x := fun e => h (by simp [e])
    have ha : c ∉ a := fun e => h (by simp [e])
    simp [splitGo, List.isPrefixOf, hx, ih ha, consHead]

theorem Split_byte_none (c : Nat) (a : Bytes) (h : c ∉ a) : Split a [c] = [a] := by
  unfold Split
  induction a with
  | nil => simp [splitGo]
  | cons x a ih =>
    have hx : c ≠ x := fun e => h (by simp [e])
    have ha : c ∉ a := fun e => h (by simp [e])
    simp [splitGo, List.isPrefixOf, hx, ih ha, consHead]

/-- Splitting on CRLF cuts at the first CRLF when no CR comes before it. -/
theorem Split_crlf_append (a b : Bytes) (h : 13 ∉ a) :
    Split (a ++ 13 :: 10 :: b) [13, 10] = a :: Split b [13, 10] := by
  unfold Split
  induction a with
  | nil => simp [splitGo, List.isPrefixOf]
  | cons x a ih =>
    have hx : 13 ≠ x := fun e => h (by simp [e])
    have ha : 13 ∉ a := fun e => h (by simp [e])
    simp [splitGo, List.isPrefixOf, hx, ih ha, consHead]

theorem Split_crlf_none (a : Bytes) (h : 13 ∉ a) : Split a [13, 10] = [a] := by
  unfold Split
  induction a with
  | nil => simp [splitGo]
  | cons x a ih =>
    have hx : 13 ≠ x := fun e => h (by simp [e])
    have ha : 13 ∉ a := fun e => h (by simp [e])
    simp [splitGo, List.isPrefixOf, hx, ih ha, consHead]

theorem Join_consHead (x : Nat) (l : List Bytes) (sep : Bytes) (h : l ≠ []) :
    Join (consHead x l) sep = x :: Join l sep := by
  rcases l with _ | ⟨p, _ | ⟨q, t⟩⟩
  · exact absurd rfl h
  · rfl
  · rfl

theorem Join_nil_cons (l : List Bytes) (sep : Bytes) (h : l ≠ []) :
    Join ([] :: l) sep = sep ++ Join l sep := by
  rcases l with _ | ⟨p, t⟩
  · exact absurd rfl h
  · rfl

/-- Joining the pieces of a split on a one-byte separator gives the string back. -/
theorem Join_Split_byte (c : Nat) (s : Bytes) : Join (Split s [c]) [c] = s := by
  unfold Split
  induction s with
  | nil => rfl
  | cons x s ih =>
    by_cases hx : c = x
    · subst hx
      have : splitGo [c] (c :: s) 0 = [] :: splitGo [c] s 0 := by
        simp [splitGo, List.isPrefixOf]
      rw [this, Join_nil_cons _ _ (splitGo_ne_nil _ _ _), ih]
      rfl
    · have : splitGo [c] (x :: s) 0 = consHead x (splitGo [c] s 0) := by
        simp [splitGo, List.isPrefixOf, hx]
      rw [this, Join_consHead _ _ _ (splitGo_ne_nil _ _ _), ih]

theorem slice_to_end {α : Type} (xs : List α) (lo : Nat) (h : lo ≤ xs.length) :
    slice xs lo xs.length = Except.ok (xs.drop lo) := by
  unfold slice
  rw [if_pos ⟨h, le_refl _⟩]
  congr 1
  apply List.take_of_length_le
  simp

theorem trimLeftSpace_slash (s : Bytes) : trimLeftSpace (47 :: s) = 47 :: s := by
  rcases s with _ | ⟨d, _ | ⟨e, t⟩⟩ <;> simp [trimLeftSpace, isAsciiSpace]

theorem trimRevSpace_cons (c : Nat) (rest : Bytes) :
    trimRevSpace (c :: rest) =
      if isAsciiSpace c then trimRevSpace rest
      else match rest with
        | d :: e :: rest3 =>
          if d = 0xC2 ∧ (c = 0x85 ∨ c = 0xA0) then trimRevSpace (e :: rest3)
          else if (e = 0xE1 ∧ d = 0x9A ∧ c = 0x80) ∨ (e = 0xE2 ∧ d = 0x80 ∧ isSpaceE280 c = true)
              ∨ (e = 0xE2 ∧ d = 0x81 ∧ c = 0x9F) ∨ (e = 0xE3 ∧ d = 0x80 ∧ c = 0x80) then
            trimRevSpace rest3
          else c :: rest
        | [d] => if d = 0xC2 ∧ (c = 0x85 ∨ c = 0xA0) then [] else c :: rest
        | [] => c :: rest := by
  rw [trimRevSpace.eq_def]
  rfl

/-- An ASCII byte that is not white space ends the backward scan. -/
theorem trimRevSpace_ascii (c : Nat) (q : Bytes) (hc : c < 128)
    (hs : isAsciiSpace c = false) : trimRevSpace (c :: q) = c :: q := by
  rw [trimRevSpace_cons]
  rcases q with _ | ⟨d, _ | ⟨e, t⟩⟩
  · simp [hs]
  · simp only [hs, Bool.false_eq_true, if_false]
    rw [if_neg]
    omega
  · simp only [hs, Bool.false_eq_true, if_false]
    rw [if_neg, if_neg]
    · simp only [isSpaceE280, Bool.or_eq_true, Bool.and_eq_true, decide_eq_true_eq,
        beq_iff_eq]
      omega
    · omega

theorem trimRevSpace_slash (q : Bytes) : trimRevSpace (47 :: q) = 47 :: q :=
  trimRevSpace_ascii 47 q (by decide) (by decide)

theorem trimRevSpace_append_slash :
    ∀ (r q : Bytes), trimRevSpace (r ++ 47 :: q) = trimRevSpace r ++ 47 :: q
  | [], q => by simpa [trimRevSpace] using trimRevSpace_slash q
  | [c], q => by
    have h0 := trimRevSpace_slash q
    simp only [List.cons_append, List.nil_append]
    rw [trimRevSpace_cons c (47 :: q), trimRevSpace_cons c []]
    by_cases hc : isAsciiSpace c = true
    · simp [hc, h0, trimRevSpace]
    · rcases q with _ | ⟨x, t⟩ <;> simp [hc, isSpaceE280]
  | [c, d], q => by
    have h0 := trimRevSpace_slash q
    have h1 := trimRevSpace_append_slash [d] q
    simp only [List.cons_append, List.nil_append] at h1 ⊢
    rw [trimRevSpace_cons c (d :: 47 :: q), trimRevSpace_cons c [d]]
    by_cases hc : isAsciiSpace c = true
    · simp [hc, h1]
    · by_cases h2 : d = 0xC2 ∧ (c = 0x85 ∨ c = 0xA0)
      · simp [hc, h2, h0, trimRevSpace]
      · simp [hc, h2]
  | c :: d :: e :: r3, q => by
    have h1 := trimRevSpace_append_slash (d :: e :: r3) q
    have h2 := trimRevSpace_append_slash (e :: r3) q
    have h3 := trimRevSpace_append_slash r3 q
    simp only [List.cons_append] at h1 h2 ⊢
    rw [trimRevSpace_cons c (d :: e :: (r3 ++ 47 :: q)), trimRevSpace_cons c (d :: e :: r3)]
    by_cases hc : isAsciiSpace c = true
    · simp only [hc, if_true, h1]
    · simp only [hc, Bool.false_eq_true, if_false]
      split_ifs
      · exact h2
      · exact h3
      · simp

/-- Trailing white space is removed up to the last slash and not beyond it. -/
theorem trimRightSpace_append_slash (p rest : Bytes) :
    trimRightSpace (p ++ 47 :: rest) = p ++ 47 :: trimRightSpace rest := by
  unfold trimRightSpace
  have : (p ++ 47 :: rest).reverse = rest.reverse ++ 47 :: p.reverse := by simp
  rw [this, trimRevSpace_append_slash]
  simp

/-- A string that is empty or ends in an ASCII byte other than white space has no
trailing white space to remove. -/
theorem trimRightSpace_eq_self (rest : Bytes)
    (h : rest = [] ∨ ∃ p c, rest = p ++ [c] ∧ c < 128 ∧ isAsciiSpace c = false) :
    trimRightSpace rest = rest := by
  rcases h with h | ⟨p, c, h, hc, hs⟩
  · subst h
    rfl
  · subst h
    unfold trimRightSpace
    rw [List.reverse_append, List.reverse_singleton, List.singleton_append,
      trimRevSpace_ascii c _ hc hs]
    simp

theorem Cut_blank_digits (d rest : Bytes) (h : 13 ∉ d) :
    Cut [13, 10, 13, 10] (d ++ 13 :: 10 :: 13 :: 10 :: rest) = some (d, rest) := by
  induction d with
  | nil => simp [Cut, List.isPrefixOf]
  | cons x d ih =>
    have hx : 13 ≠ x := fun e => h (by simp [e])
    have ha : 13 ∉ d := fun e => h (by simp [e])
    simp [Cut, List.isPrefixOf, hx, ih ha]

theorem digit_ne_cr {l : Bytes} (h : ∀ c ∈ l, isDigit c = true) : 13 ∉ l := by
  intro hm
  have := h 13 hm
  revert this
  decide

/-- The header block of the plain-text response and the bytes that follow the blank
line. -/
theorem plain_text_cut (s : Bytes) :
    Cut (ascii "\r\n\r\n") (getResponseWithContent s)
      = some (ascii "HTTP/1.1 200 OK\r\nContent-Type: text/plain\r\nContent-Length: "
          ++ formatInt s.length, s ++ ascii "\r\n") := by
  have hd := digit_ne_cr (formatInt_spec s.length).2.1
  have key := Cut_blank_digits (formatInt s.length) (s ++ ascii "\r\n") hd
  have hp : ascii "HTTP/1.1 200 OK\r\nContent-Type: text/plain\r\nContent-Length: "
      = [72, 84, 84, 80, 47, 49, 46, 49, 32, 50, 48, 48, 32, 79, 75, 13, 10, 67, 111, 110, 116,
        101, 110, 116, 45, 84, 121, 112, 101, 58, 32, 116, 101, 120, 116, 47, 112, 108, 97,
        105, 110, 13, 10, 67, 111, 110, 116, 101, 110, 116, 45, 76, 101, 110, 103, 116, 104,
        58, 32] := by decide
  rw [getResponseWithContent, ascii_blank, hp]
  simp only [List.cons_append, List.nil_append, List.append_assoc, Cut, List.isPrefixOf]
  simp [key]

/-- The header block of the plain-text response declares the length of the content. -/
theorem plain_text_declared (s : Bytes) :
    declaredContentLength
        (ascii "HTTP/1.1 200 OK\r\nContent-Type: text/plain\r\nContent-Length: "
          ++ formatInt s.length) = some s.length := by
  obtain ⟨hv, hd, hne⟩ := formatInt_spec s.length
  have hcr := digit_ne_cr hd
  have hp : ascii "HTTP/1.1 200 OK\r\nContent-Type: text/plain\r\nContent-Length: "
      = ascii "HTTP/1.1 200 OK" ++ 13 :: 10 :: (ascii "Content-Type: text/plain" ++ 13 :: 10 ::
          ascii "Content-Length: ") := by decide
  have h3 : 13 ∉ ascii "Content-Length: " ++ formatInt s.length := by
    intro hm
    rcases List.mem_append.mp hm with hm | hm
    · revert hm
      decide
    · exact hcr hm
  have hsplit : Split (ascii "HTTP/1.1 200 OK\r\nContent-Type: text/plain\r\nContent-Length: "
      ++ formatInt s.length) (ascii "\r\n")
      = [ascii "HTTP/1.1 200 OK", ascii "Content-Type: text/plain",
          ascii "Content-Length: " ++ formatInt s.length] := by
    rw [hp, ascii_crlf]
    simp only [List.append_assoc, List.cons_append]
    rw [Split_crlf_append _ _ (by decide), Split_crlf_append _ _ (by decide),
      Split_crlf_none _ h3]
  have hl1 : (ascii "Content-Length: ").isPrefixOf (ascii "HTTP/1.1 200 OK") = false := by
    decide
  have hl2 : (ascii "Content-Length: ").isPrefixOf (ascii "Content-Type: text/plain")
      = false := by decide
  have hl3 : (ascii "Content-Length: ").isPrefixOf
      (ascii "Content-Length: " ++ formatInt s.length) = true := by
    simp
  have hdrop : (ascii "Content-Length: " ++ formatInt s.length).drop 16
      = formatInt s.length := by
    have : (ascii "Content-Length: ").length = 16 := by decide
    rw [← this, List.drop_left]
  have hall : (formatInt s.length).all isDigit = true := by
    rw [List.all_eq_true]
    exact hd
  unfold declaredContentLength
  rw [hsplit]
  simp only [List.findSome?, hl1, hl2, hl3, hdrop, hall, hv, Bool.false_eq_true, false_and,
    if_false, true_and, ne_eq, hne, not_false_eq_true, if_true]


theorem getRequest_path_steps {raw : Bytes} {req : request}
    (h : getRequest raw = Except.ok req) : req.path_steps = getPathSteps req.path := by
  unfold getRequest at h
  dsimp only at h
  split at h
  · cases h
  split at h
  · cases h
  split at h
  · cases h
  split at h
  · cases h
  split at h
  · cases h
  cases h
  rfl

theorem getPathSteps_root : getPathSteps (ascii "/") = [[], []] := by decide

theorem getPathSteps_userAgent :
    getPathSteps (ascii "/user-agent") = [[], ascii "user-agent"] := by decide

theorem index_of_getElem? {α : Type} {xs : List α} {i : Nat} {x : α} (h : xs[i]? = some x) :
    index xs i = Except.ok x := by
  simp only [index, h]

theorem length_of_getElem?_one {α : Type} {xs : List α} {x : α} (h : xs[1]? = some x) :
    xs.length > 1 := by
  rcases xs with _ | ⟨a, _ | ⟨b, t⟩⟩ <;> simp at h ⊢

/-- A request whose second path segment is `files` is neither the root request nor an
echo request. -/
theorem files_not_root_not_echo {raw : Bytes} {req : request}
    (h : getRequest raw = Except.ok req)
    (h1 : req.path_steps[1]? = some filesPathStart) :
    req.path ≠ ascii "/" ∧ isEchoPath req.path_steps = false := by
  constructor
  · intro hp
    have hs := getRequest_path_steps h
    rw [hp, getPathSteps_root] at hs
    rw [hs] at h1
    revert h1
    decide
  · simp only [isEchoPath, h1]
    have : (some filesPathStart == some echoPathStart) = false := by decide
    simp [this]

theorem Headers.get_filter_ne (h : Headers) (key k : Bytes) (hk : key ≠ k) :
    Headers.get (h.filter (fun p => decide (p.1 ≠ key))) k = Headers.get h k := by
  induction h with
  | nil => rfl
  | cons p t ih =>
    obtain ⟨a, v⟩ := p
    simp only [ne_eq, decide_not] at ih ⊢
    by_cases ha : a = key
    · subst ha
      simp [List.filter, Headers.get, ih, hk]
    · simp [List.filter, Headers.get, ih, ha]

theorem Headers.get_set (h : Headers) (key value k : Bytes) :
    (h.set key value).get k = if key = k then some value else h.get k := by
  unfold Headers.set
  by_cases hk : key = k
  · simp [Headers.get, hk]
  · simp only [Headers.get, if_neg hk]
    exact Headers.get_filter_ne h key k hk

/-- The body of the loop of `parseHeaders`. -/
theorem parseHeaders_append_singleton (L : List Bytes) (l : Bytes) :
    parseHeaders (L ++ [l]) =
      if l.length = 0 ∨ ¬ Contains l (ascii ":") = true then parseHeaders L
      else (parseHeaders L).set ((Split l (ascii ":")).headD [])
        (TrimSpace (Join ((Split l (ascii ":")).drop 1) [])) := by
  simp only [parseHeaders, List.foldl_append, List.foldl_cons, List.foldl_nil]

/-- A key that no line defines is not in the parsed map. -/
theorem parseHeaders_get_none (L : List Bytes) (k : Bytes)
    (h : ∀ l ∈ L, (parseHeaders [l]).get k = none) : (parseHeaders L).get k = none := by
  induction L using List.reverseRecOn with
  | nil => rfl
  | append_singleton L l ih =>
    have hl := h l (by simp)
    have hL := ih (fun x hx => h x (by simp [hx]))
    have h1 := parseHeaders_append_singleton [] l
    rw [List.nil_append] at h1
    rw [parseHeaders_append_singleton]
    rw [h1] at hl
    by_cases hc : l.length = 0 ∨ ¬ Contains l (ascii ":") = true
    · rw [if_pos hc]
      exact hL
    · rw [if_neg hc] at hl ⊢
      rw [Headers.get_set] at hl ⊢
      by_cases hk : (Split l (ascii ":")).headD [] = k
      · rw [if_pos hk] at hl
        cases hl
      · rw [if_neg hk]
        exact hL

theorem firstIndex_lt {p : Bytes → Bool} {l : List Bytes} {i : Nat}
    (h : firstIndex p l = some i) : i < l.length := by
  induction l generalizing i with
  | nil => cases h
  | cons r rs ih =>
    unfold firstIndex at h
    by_cases hp : p r = true
    · rw [if_pos hp] at h
      cases h
      simp
    · rw [if_neg hp] at h
      cases hf : firstIndex p rs with
      | none => rw [hf] at h; cases h
      | some j =>
        rw [hf] at h
        cases h
        have := ih hf
        simp
        omega

/-- The header slice `requestRows[start:end]` of `getRequest` never panics, and its rows
are rows of the request. -/
theorem header_slice_ok (rows : List Bytes) :
    ∃ rawHeaders,
      slice rows (startOfHeadersIndex rows)
          (endOfHeadersIndex rows (startOfHeadersIndex rows)) = Except.ok rawHeaders
      ∧ ∀ l ∈ rawHeaders, l ∈ rows := by
  have hstart : startOfHeadersIndex rows ≤ rows.length - 1 := by
    unfold startOfHeadersIndex
    cases hf : firstIndex (fun row => row.length != 0) (rows.drop 1) with
    | none => simp
    | some i =>
      have := firstIndex_lt hf
      simp only [List.length_drop] at this
      simp only
      omega
  have hstop : startOfHeadersIndex rows ≤ endOfHeadersIndex rows (startOfHeadersIndex rows)
      ∧ endOfHeadersIndex rows (startOfHeadersIndex rows) ≤ rows.length := by
    generalize startOfHeadersIndex rows = start at hstart ⊢
    unfold endOfHeadersIndex
    cases hf : firstIndex (fun row => row.length == 0) (rows.drop start) with
    | none =>
      simp only
      omega
    | some j =>
      have := firstIndex_lt hf
      simp only [List.length_drop] at this
      simp only
      omega
  refine ⟨_, by rw [slice, if_pos hstop], ?_⟩
  intro l hl
  exact List.mem_of_mem_drop (List.mem_of_mem_take hl)


theorem Split_joined_lines (hs : List Bytes) (hh : ∀ h ∈ hs, 13 ∉ h) :
    Split (Join hs [13, 10] ++ [13, 10, 13, 10]) [13, 10]
      = (if hs = [] then [[]] else hs) ++ [[], []] := by
  induction hs with
  | nil => decide
  | cons h t ih =>
    have h13 : 13 ∉ h := hh h (by simp)
    cases t with
    | nil =>
      have : Join [h] [13, 10] ++ [13, 10, 13, 10] = h ++ 13 :: 10 :: [13, 10] := rfl
      rw [this, Split_crlf_append _ _ h13]
      have : Split [13, 10] [13, 10] = [[], []] := by decide
      rw [this]
      simp
    | cons h2 t =>
      have ht := ih (fun x hx => hh x (by simp [hx]))
      rw [if_neg (by simp)] at ht
      have : Join (h :: h2 :: t) [13, 10] ++ [13, 10, 13, 10]
          = h ++ 13 :: 10 :: (Join (h2 :: t) [13, 10] ++ [13, 10, 13, 10]) := by
        simp [Join]
      rw [this, Split_crlf_append _ _ h13, ht]
      simp

theorem requestLine_tokens (m : Bytes) (hm : 32 ∉ m) :
    Split (m ++ ascii " / HTTP/1.1") (ascii " ") = [m, ascii "/", ascii "HTTP/1.1"] := by
  have : m ++ ascii " / HTTP/1.1" = m ++ 32 :: (ascii "/" ++ 32 :: ascii "HTTP/1.1") := by
    congr 1
  rw [this, ascii_space, Split_byte_append 32 _ _ hm, Split_byte_append 32 _ _ (by decide),
    Split_byte_none 32 _ (by decide)]

theorem parseHeaders_singleton (l : Bytes) :
    parseHeaders [l] =
      if l.length = 0 ∨ ¬ Contains l (ascii ":") = true then []
      else Headers.set [] ((Split l (ascii ":")).headD [])
        (TrimSpace (Join ((Split l (ascii ":")).drop 1) [])) := by
  have := parseHeaders_append_singleton [] l
  rwa [List.nil_append] at this

/-- The request line of a request to `/` does not define `Content-Length` unless the
method begins with `Content-Length:`. -/
theorem requestLine_no_contentLength (m : Bytes)
    (hm : ¬ (ascii "Content-Length:" <+: m)) :
    (parseHeaders [m ++ ascii " / HTTP/1.1"]).get (ascii "Content-Length") = none := by
  rw [parseHeaders_singleton]
  split
  · rfl
  · rw [Headers.get_set, if_neg]
    · rfl
    · intro hk
      by_cases h58 : 58 ∈ m
      · obtain ⟨a, b, hab, ha⟩ := List.eq_append_cons_of_mem h58
        have hs : Split (m ++ ascii " / HTTP/1.1") (ascii ":")
            = a :: Split (b ++ ascii " / HTTP/1.1") [58] := by
          rw [hab, ascii_colon, List.append_assoc, List.cons_append,
            Split_byte_append 58 _ _ ha]
        rw [hs] at hk
        simp only [List.headD_cons] at hk
        apply hm
        rw [hab, hk]
        have : ascii "Content-Length:" = ascii "Content-Length" ++ [58] := by decide
        rw [this]
        exact ⟨b, by simp⟩
      · have h58' : 58 ∉ m ++ ascii " / HTTP/1.1" := by
          intro hmem
          rcases List.mem_append.mp hmem with h | h
          · exact h58 h
          · revert h
            decide
        rw [ascii_colon, Split_byte_none 58 _ h58'] at hk
        simp only [List.headD_cons] at hk
        have h32 : 32 ∈ ascii "Content-Length" := by
          rw [← hk]
          apply List.mem_append_right
          decide
        revert h32
        decide

theorem mem_consHead {c : Nat} {l : List Bytes} {p : Bytes} (h : p ∈ consHead c l) :
    (∃ q, p = c :: q ∧ (q ∈ l ∨ (l = [] ∧ q = []))) ∨ p ∈ l := by
  rcases l with _ | ⟨q, t⟩
  · simp only [consHead, List.mem_singleton] at h
    exact Or.inl ⟨[], h, Or.inr ⟨rfl, rfl⟩⟩
  · simp only [consHead, List.mem_cons] at h
    rcases h with h | h
    · exact Or.inl ⟨q, h, Or.inl (by simp)⟩
    · exact Or.inr (by simp [h])

/-- No piece of a split on a one-byte separator contains the separator. -/
theorem not_mem_of_mem_Split (c : Nat) (s p : Bytes) (h : p ∈ Split s [c]) : c ∉ p := by
  unfold Split at h
  induction s generalizing p with
  | nil =>
    simp only [splitGo, List.mem_singleton] at h
    subst h
    simp
  | cons x s ih =>
    by_cases hx : c = x
    · subst hx
      have : splitGo [c] (c :: s) 0 = [] :: splitGo [c] s 0 := by
        simp [splitGo, List.isPrefixOf]
      rw [this] at h
      rcases List.mem_cons.mp h with h | h
      · subst h
        simp
      · exact ih p h
    · have : splitGo [c] (x :: s) 0 = consHead x (splitGo [c] s 0) := by
        simp [splitGo, List.isPrefixOf, hx]
      rw [this] at h
      rcases mem_consHead h with ⟨q, hp, hq | ⟨hnil, -⟩⟩ | h
      · subst hp
        intro hm
        rcases List.mem_cons.mp hm with hm | hm
        · exact hx hm
        · exact ih q hq hm
      · exact absurd hnil (splitGo_ne_nil _ _ _)
      · exact ih p h

theorem getPathSteps_slash (s : Bytes) :
    getPathSteps (ascii "/" ++ s) = [] :: Split (trimRightSpace s) [47] := by
  have h1 : ascii "/" ++ s = 47 :: s := rfl
  have h2 : (47 :: s : Bytes) = [] ++ 47 :: s := rfl
  rw [getPathSteps, TrimSpace, h1, trimLeftSpace_slash, h2, trimRightSpace_append_slash,
    ascii_slash, Split_byte_append 47 _ _ (by simp)]

theorem Contains_byte (c : Nat) (l : Bytes) : Contains l [c] = true ↔ c ∈ l := by
  induction l with
  | nil => simp [Contains]
  | cons x l ih =>
    simp only [Contains, List.isPrefixOf, List.mem_cons, Bool.or_eq_true, ih, Bool.and_eq_true,
      beq_iff_eq]
    cases l <;> simp [List.isPrefixOf]

/-- Joining the pieces of a split with the empty string removes the separator bytes. -/
theorem Join_Split_empty (c : Nat) (s : Bytes) :
    Join (Split s [c]) [] = s.filter (fun x => x != c) := by
  unfold Split
  induction s with
  | nil => rfl
  | cons x s ih =>
    by_cases hx : c = x
    · subst hx
      have : splitGo [c] (c :: s) 0 = [] :: splitGo [c] s 0 := by
        simp [splitGo, List.isPrefixOf]
      rw [this, Join_nil_cons _ _ (splitGo_ne_nil _ _ _), ih]
      simp
    · have : splitGo [c] (x :: s) 0 = consHead x (splitGo [c] s 0) := by
        simp [splitGo, List.isPrefixOf, hx]
      rw [this, Join_consHead _ _ _ (splitGo_ne_nil _ _ _), ih]
      have hx' : (x != c) = true := by simpa using fun e => hx e.symm
      simp [List.filter, hx']

/-- What `parseHeaders` stores for a single line with a colon: the key is the text before
the first colon, the value the text after it with the further colons removed and the
surrounding white space trimmed. -/
theorem parseHeaders_colon_line (a b : Bytes) (ha : 58 ∉ a) :
    parseHeaders [a ++ 58 :: b] = [(a, TrimSpace (b.filter (fun x => x != 58)))] := by
  rw [parseHeaders_singleton, if_neg]
  · rw [ascii_colon, Split_byte_append 58 _ _ ha]
    simp only [List.headD_cons, List.drop_succ_cons, List.drop_zero, Join_Split_empty]
    rfl
  · rw [ascii_colon, Contains_byte]
    simp

theorem getReadFileResponse_eq (directoryArg : Bytes) (fs : FileSystem)
    (path_steps : List Bytes) (name : Bytes) (h : path_steps[2]? = some name) :
    getReadFileResponse directoryArg fs path_steps
      = Except.ok
          (match (if directoryArg.length = 0 then none
              else fs.readFile (directoryArg ++ ascii "/" ++ name)) with
            | none => responseNotFoundByteArray
            | some file => getResponseWithFile file) := by
  simp only [getReadFileResponse, index_of_getElem? h, getFile]
  split <;> simp_all

theorem writeFile_eq (directoryArg : Bytes) (fs : FileSystem) (req : request) (name : Bytes)
    (h : req.path_steps[2]? = some name) :
    writeFile fs directoryArg req
      = Except.ok
        (if directoryArg.length = 0 then (false, fs)
          else if fs.canCreate (directoryArg ++ ascii "/" ++ name) = true then
            (true, fs.write (directoryArg ++ ascii "/" ++ name) (req.content.getD []))
          else (false, fs)) := by
  simp only [writeFile, index_of_getElem? h]
  split
  · rfl
  · split <;> rfl

theorem slice_zero_length {α : Type} {xs c : List α} {n : Nat}
    (h : slice xs 0 n = Except.ok c) : c.length = n := by
  unfold slice at h
  split at h
  · rename_i hb
    cases h
    simp only [List.drop_zero, Nat.sub_zero, List.length_take]
    omega
  · cases h

theorem ParseInt_invalid (v : Bytes) :
    ParseInt v = (0, some NumError.invalid) ∨ (ParseInt v).2 ≠ some NumError.invalid := by
  unfold ParseInt
  split
  · left
    rfl
  · dsimp only
    split_ifs <;> first | (left; rfl) | (right; simp)

theorem AtoiErr_invalid (v : Bytes) :
    AtoiErr v = (0, some NumError.invalid) ∨ (AtoiErr v).2 ≠ some NumError.invalid := by
  unfold AtoiErr
  split_ifs with hl
  · cases v with
    | nil =>
      left
      rfl
    | cons c cs =>
      dsimp only
      split_ifs <;> first
        | (left; rfl)
        | (split <;> simp)
  · exact ParseInt_invalid v

/-- A syntax error of `Atoi` comes with the value 0. -/
theorem Atoi_invalid (v : Bytes) (h : (AtoiErr v).2 = some NumError.invalid) : Atoi v = 0 := by
  rcases AtoiErr_invalid v with h1 | h1
  · rw [Atoi, h1]
  · exact absurd h h1

/-- What the content block of `getRequest` returns when it returns. -/
theorem requestContent_ok {parsedHeaders : Headers} {rows : List Bytes} {stop : Nat}
    {content : Option Bytes} (h : requestContent parsedHeaders rows stop = Except.ok content) :
    (content = none ↔ parsedHeaders.get (ascii "Content-Length") = none)
    ∧ (∀ v, parsedHeaders.get (ascii "Content-Length") = some v →
        0 ≤ Atoi v ∧ ∃ c, content = some c ∧ (c.length : Int) = Atoi v) := by
  unfold requestContent at h
  split at h
  · rename_i hn
    cases h
    exact ⟨by simp [hn], by intro v hv; rw [hn] at hv; cases hv⟩
  · rename_i v hv
    simp only at h
    split at h
    · cases h
    · split at h
      · cases h
      · rename_i hneg
        split at h
        · cases h
        · rename_i c hc
          cases h
          refine ⟨by simp [hv], ?_⟩
          intro v' hv'
          rw [hv] at hv'
          cases hv'
          have hlen := slice_zero_length hc
          refine ⟨by omega, c, rfl, ?_⟩
          rw [hlen]
          omega

theorem getRequest_content {raw : Bytes} {req : request}
    (h : getRequest raw = Except.ok req) :
    ∃ rows stop, requestContent req.headers rows stop = Except.ok req.content := by
  unfold getRequest at h
  dsimp only at h
  split at h
  · cases h
  split at h
  · cases h
  split at h
  · cases h
  rename_i hc
  split at h
  · cases h
  split at h
  · cases h
  cases h
  exact ⟨_, _, hc⟩

theorem takeWhile_ne_append (c : Nat) (a b : Bytes) (h : c ∉ a) :
    (a ++ c :: b).takeWhile (fun x => x != c) = a := by
  induction a with
  | nil => simp [List.takeWhile]
  | cons x a ih =>
    have hx : x ≠ c := fun e => h (by simp [e])
    have ha : c ∉ a := fun e => h (by simp [e])
    have hb : (x != c) = true := by simpa using hx
    rw [List.cons_append, List.takeWhile_cons, if_pos hb, ih ha]

/-- One turn of the loop of `parseHeaders`: a line without a colon is
skipped, a line with a colon sets the text before its first colon. -/
theorem parseHeaders_snoc (L : List Bytes) (l : Bytes) :
    parseHeaders (L ++ [l]) =
      if 58 ∈ l then
        (parseHeaders L).set (l.takeWhile (fun x => x != 58))
          (TrimSpace (Join ((Split l (ascii ":")).drop 1) []))
      else parseHeaders L := by
  rw [parseHeaders_append_singleton]
  by_cases h : 58 ∈ l
  · rw [if_pos h, if_neg]
    · obtain ⟨a, b, hab, ha⟩ := List.eq_append_cons_of_mem h
      rw [hab, takeWhile_ne_append 58 a b ha, ascii_colon, Split_byte_append 58 _ _ ha]
      rfl
    · intro hc
      rcases hc with hc | hc
      · have : l = [] := List.eq_nil_of_length_eq_zero hc
        rw [this] at h
        simp at h
      · apply hc
        rw [ascii_colon, Contains_byte]
        exact h
  · rw [if_neg h, if_pos]
    right
    rw [ascii_colon, Contains_byte]
    exact h

/-- Lines that define no `k` at the end of the list do not change what is stored for
`k`. -/
theorem parseHeaders_get_append (L1 L2 : List Bytes) (k : Bytes)
    (h : ∀ l ∈ L2, 58 ∈ l → l.takeWhile (fun x => x != 58) ≠ k) :
    (parseHeaders (L1 ++ L2)).get k = (parseHeaders L1).get k := by
  induction L2 using List.reverseRecOn with
  | nil => simp
  | append_singleton L2 l ih =>
    have ih' := ih (fun x hx => h x (by simp [hx]))
    rw [← List.append_assoc, parseHeaders_snoc]
    by_cases hl : 58 ∈ l
    · rw [if_pos hl, Headers.get_set, if_neg (h l (by simp) hl)]
      exact ih'
    · rw [if_neg hl]
      exact ih'

theorem parseHeaders_mem_iff (L : List Bytes) (k : Bytes) :
    (parseHeaders L).get k ≠ none
      ↔ ∃ l ∈ L, 58 ∈ l ∧ l.takeWhile (fun x => x != 58) = k := by
  induction L using List.reverseRecOn with
  | nil => simp [parseHeaders, Headers.get]
  | append_singleton L l ih =>
    rw [parseHeaders_snoc]
    by_cases hl : 58 ∈ l
    · rw [if_pos hl, Headers.get_set]
      by_cases hk : l.takeWhile (fun x => x != 58) = k
      · rw [if_pos hk]
        constructor
        · intro _
          exact ⟨l, by simp, hl, hk⟩
        · intro _
          simp
      · rw [if_neg hk, ih]
        constructor
        · rintro ⟨x, hx, h1, h2⟩
          exact ⟨x, by simp [hx], h1, h2⟩
        · rintro ⟨x, hx, h1, h2⟩
          rcases List.mem_append.mp hx with hx | hx
          · exact ⟨x, hx, h1, h2⟩
          · rw [List.mem_singleton.mp hx] at h2
            exact absurd h2 hk
    · rw [if_neg hl, ih]
      constructor
      · rintro ⟨x, hx, h1, h2⟩
        exact ⟨x, by simp [hx], h1, h2⟩
      · rintro ⟨x, hx, h1, h2⟩
        rcases List.mem_append.mp hx with hx | hx
        · exact ⟨x, hx, h1, h2⟩
        · rw [List.mem_singleton.mp hx] at h1
          exact absurd h1 hl

theorem parseHeaders_filter (L : List Bytes) :
    parseHeaders (L.filter (fun l => decide (l ≠ [] ∧ 58 ∈ l))) = parseHeaders L := by
  induction L using List.reverseRecOn with
  | nil => rfl
  | append_singleton L l ih =>
    rw [List.filter_append]
    by_cases hl : 58 ∈ l
    · have hne : l ≠ [] := by
        intro e
        rw [e] at hl
        simp at hl
      have : [l].filter (fun l => decide (l ≠ [] ∧ 58 ∈ l)) = [l] := by
        simp [List.filter, hl, hne]
      rw [this, parseHeaders_snoc, parseHeaders_snoc, ih]
    · have : [l].filter (fun l => decide (l ≠ [] ∧ 58 ∈ l)) = [] := by
        simp [List.filter, hl]
      rw [this, List.append_nil, parseHeaders_snoc, if_neg hl, ih]

theorem trimLeftSpace_cons (c : Nat) (rest : Bytes) :
    trimLeftSpace (c :: rest) =
      if isAsciiSpace c then trimLeftSpace rest
      else match rest with
        | d :: e :: rest3 =>
          if c = 0xC2 ∧ (d = 0x85 ∨ d = 0xA0) then trimLeftSpace (e :: rest3)
          else if (c = 0xE1 ∧ d = 0x9A ∧ e = 0x80) ∨ (c = 0xE2 ∧ d = 0x80 ∧ isSpaceE280 e = true)
              ∨ (c = 0xE2 ∧ d = 0x81 ∧ e = 0x9F) ∨ (c = 0xE3 ∧ d = 0x80 ∧ e = 0x80) then
            trimLeftSpace rest3
          else c :: rest
        | [d] => if c = 0xC2 ∧ (d = 0x85 ∨ d = 0xA0) then [] else c :: rest
        | [] => c :: rest := by
  rw [trimLeftSpace.eq_def]
  rfl

/-- A string that does not begin with white space is left alone. -/
theorem trimLeftSpace_of_not_startsWithSpace (w : Bytes) (h : startsWithSpace w = false) :
    trimLeftSpace w = w := by
  rcases w with _ | ⟨c, _ | ⟨d, _ | ⟨e, t⟩⟩⟩
  · rfl
  · simp only [startsWithSpace, Bool.or_false] at h
    rw [trimLeftSpace_cons, if_neg (by simp [h])]
  · simp only [startsWithSpace, Bool.or_eq_false_iff, decide_eq_false_iff_not] at h
    rw [trimLeftSpace_cons, if_neg (by simp [h.1])]
    simp only
    rw [if_neg h.2]
  · simp only [startsWithSpace, Bool.or_eq_false_iff, decide_eq_false_iff_not] at h
    rw [trimLeftSpace_cons, if_neg (by simp [h.1])]
    simp only
    rw [if_neg h.2.1, if_neg h.2.2]

/-- What `trimLeftSpace` returns does not begin with white space. -/
theorem startsWithSpace_trimLeftSpace : ∀ w : Bytes, startsWithSpace (trimLeftSpace w) = false
  | [] => rfl
  | [c] => by
    rw [trimLeftSpace_cons]
    by_cases hc : isAsciiSpace c = true
    · rw [if_pos hc]
      rfl
    · rw [if_neg hc]
      simp only [startsWithSpace, Bool.or_false]
      simpa using hc
  | [c, d] => by
    have h1 := startsWithSpace_trimLeftSpace [d]
    rw [trimLeftSpace_cons]
    by_cases hc : isAsciiSpace c = true
    · rw [if_pos hc]
      exact h1
    · rw [if_neg hc]
      simp only
      by_cases h2 : c = 0xC2 ∧ (d = 0x85 ∨ d = 0xA0)
      · rw [if_pos h2]
        rfl
      · rw [if_neg h2]
        simp only [startsWithSpace, Bool.or_eq_false_iff, decide_eq_false_iff_not]
        exact ⟨by simpa using hc, h2⟩
  | c :: d :: e :: t => by
    have h1 := startsWithSpace_trimLeftSpace (d :: e :: t)
    have h2 := startsWithSpace_trimLeftSpace (e :: t)
    have h3 := startsWithSpace_trimLeftSpace t
    rw [trimLeftSpace_cons]
    by_cases hc : isAsciiSpace c = true
    · rw [if_pos hc]
      exact h1
    · rw [if_neg hc]
      simp only
      by_cases hp : c = 0xC2 ∧ (d = 0x85 ∨ d = 0xA0)
      · rw [if_pos hp]
        exact h2
      · rw [if_neg hp]
        split_ifs with hq
        · exact h3
        · simp only [startsWithSpace, Bool.or_eq_false_iff, decide_eq_false_iff_not]
          exact ⟨by simpa using hc, hp, hq⟩

/-- A prefix of a string that does not begin with white space does not either. -/
theorem startsWithSpace_initial (z w : Bytes) (hz : z <+: w) (h : startsWithSpace w = false) :
    startsWithSpace z = false := by
  obtain ⟨t, rfl⟩ := hz
  rcases z with _ | ⟨c, _ | ⟨d, _ | ⟨e, z3⟩⟩⟩
  · rfl
  · rcases t with _ | ⟨d, _ | ⟨e, t3⟩⟩ <;>
      simp only [List.cons_append, List.nil_append, startsWithSpace, Bool.or_false,
        Bool.or_eq_false_iff] at h ⊢
    · exact h
    · exact h.1
    · exact h.1
  · rcases t with _ | ⟨e, t3⟩ <;>
      simp only [List.cons_append, List.nil_append, startsWithSpace, Bool.or_false,
        Bool.or_eq_false_iff, List.append_nil] at h ⊢
    · exact h
    · exact ⟨h.1, h.2.1⟩
  · simp only [List.cons_append, startsWithSpace] at h ⊢
    exact h


theorem trimRevSpace_idem : ∀ r : Bytes, trimRevSpace (trimRevSpace r) = trimRevSpace r
  | [] => rfl
  | [c] => by
    rw [trimRevSpace_cons]
    by_cases hc : isAsciiSpace c = true
    · rw [if_pos hc]
      rfl
    · rw [if_neg hc]
      simp only
      rw [trimRevSpace_cons, if_neg hc]
  | [c, d] => by
    have h1 := trimRevSpace_idem [d]
    rw [trimRevSpace_cons]
    by_cases hc : isAsciiSpace c = true
    · rw [if_pos hc]
      exact h1
    · rw [if_neg hc]
      simp only
      by_cases h2 : d = 0xC2 ∧ (c = 0x85 ∨ c = 0xA0)
      · rw [if_pos h2]
        rfl
      · rw [if_neg h2, trimRevSpace_cons, if_neg hc]
        simp only
        rw [if_neg h2]
  | c :: d :: e :: t => by
    have h1 := trimRevSpace_idem (d :: e :: t)
    have h2 := trimRevSpace_idem (e :: t)
    have h3 := trimRevSpace_idem t
    rw [trimRevSpace_cons]
    by_cases hc : isAsciiSpace c = true
    · rw [if_pos hc]
      exact h1
    · rw [if_neg hc]
      simp only
      by_cases hp : d = 0xC2 ∧ (c = 0x85 ∨ c = 0xA0)
      · rw [if_pos hp]
        exact h2
      · rw [if_neg hp]
        split_ifs with hq
        · exact h3
        · rw [trimRevSpace_cons, if_neg hc]
          simp only
          rw [if_neg hp, if_neg hq]

theorem trimRevSpace_suffix : ∀ r : Bytes, trimRevSpace r <:+ r
  | [] => List.suffix_refl _
  | [c] => by
    rw [trimRevSpace_cons]
    by_cases hc : isAsciiSpace c = true
    · rw [if_pos hc]
      exact List.nil_suffix
    · rw [if_neg hc]
  | [c, d] => by
    have h1 := trimRevSpace_suffix [d]
    rw [trimRevSpace_cons]
    by_cases hc : isAsciiSpace c = true
    · rw [if_pos hc]
      exact h1.trans (List.suffix_cons _ _)
    · rw [if_neg hc]
      simp only
      split_ifs
      · exact List.nil_suffix
      · exact List.suffix_refl _
  | c :: d :: e :: t => by
    have h1 := trimRevSpace_suffix (d :: e :: t)
    have h2 := trimRevSpace_suffix (e :: t)
    have h3 := trimRevSpace_suffix t
    rw [trimRevSpace_cons]
    by_cases hc : isAsciiSpace c = true
    · rw [if_pos hc]
      exact h1.trans (List.suffix_cons _ _)
    · rw [if_neg hc]
      simp only
      split_ifs
      · exact h2.trans ((List.suffix_cons _ _).trans (List.suffix_cons _ _))
      · exact h3.trans ((List.suffix_cons _ _).trans
          ((List.suffix_cons _ _).trans (List.suffix_cons _ _)))
      · exact List.suffix_refl _

theorem trimLeftSpace_suffix : ∀ r : Bytes, trimLeftSpace r <:+ r
  | [] => List.suffix_refl _
  | [c] => by
    rw [trimLeftSpace_cons]
    by_cases hc : isAsciiSpace c = true
    · rw [if_pos hc]
      exact List.nil_suffix
    · rw [if_neg hc]
  | [c, d] => by
    have h1 := trimLeftSpace_suffix [d]
    rw [trimLeftSpace_cons]
    by_cases hc : isAsciiSpace c = true
    · rw [if_pos hc]
      exact h1.trans (List.suffix_cons _ _)
    · rw [if_neg hc]
      simp only
      split_ifs
      · exact List.nil_suffix
      · exact List.suffix_refl _
  | c :: d :: e :: t => by
    have h1 := trimLeftSpace_suffix (d :: e :: t)
    have h2 := trimLeftSpace_suffix (e :: t)
    have h3 := trimLeftSpace_suffix t
    rw [trimLeftSpace_cons]
    by_cases hc : isAsciiSpace c = true
    · rw [if_pos hc]
      exact h1.trans (List.suffix_cons _ _)
    · rw [if_neg hc]
      simp only
      split_ifs
      · exact h2.trans ((List.suffix_cons _ _).trans (List.suffix_cons _ _))
      · exact h3.trans ((List.suffix_cons _ _).trans
          ((List.suffix_cons _ _).trans (List.suffix_cons _ _)))
      · exact List.suffix_refl _

theorem trimRightSpace_initial (w : Bytes) : trimRightSpace w <+: w := by
  unfold trimRightSpace
  have h := trimRevSpace_suffix w.reverse
  rw [← List.reverse_prefix, List.reverse_reverse] at h
  exact h

theorem trimRightSpace_idem (w : Bytes) :
    trimRightSpace (trimRightSpace w) = trimRightSpace w := by
  unfold trimRightSpace
  rw [List.reverse_reverse, trimRevSpace_idem]

/-- Every byte of the trimmed string is a byte of the string. -/
theorem mem_of_mem_TrimSpace {x : Nat} {s : Bytes} (h : x ∈ TrimSpace s) : x ∈ s := by
  unfold TrimSpace at h
  exact (trimLeftSpace_suffix s).subset ((trimRightSpace_initial _).subset h)

/-- A trimmed string with a space put in front trims to itself. -/
theorem TrimSpace_space_TrimSpace (x : Bytes) :
    TrimSpace (32 :: TrimSpace x) = TrimSpace x := by
  have h1 : trimLeftSpace (32 :: TrimSpace x) = trimLeftSpace (TrimSpace x) := by
    rw [trimLeftSpace_cons, if_pos (by decide)]
  have h2 : startsWithSpace (TrimSpace x) = false :=
    startsWithSpace_initial _ _ (trimRightSpace_initial _) (startsWithSpace_trimLeftSpace x)
  have h3 : trimLeftSpace (TrimSpace x) = TrimSpace x :=
    trimLeftSpace_of_not_startsWithSpace _ h2
  conv_lhs => rw [TrimSpace, h1, h3]
  exact trimRightSpace_idem _


theorem Headers.mem_set {h : Headers} {key value : Bytes} {p : Bytes × Bytes}
    (hp : p ∈ h.set key value) : p = (key, value) ∨ p ∈ h := by
  unfold Headers.set at hp
  rcases List.mem_cons.mp hp with hp | hp
  · exact Or.inl hp
  · exact Or.inr (List.mem_filter.mp hp).1

theorem Headers.nodup_set (h : Headers) (key value : Bytes)
    (hn : (h.map Prod.fst).Nodup) : ((h.set key value).map Prod.fst).Nodup := by
  unfold Headers.set
  rw [List.map_cons, List.nodup_cons]
  constructor
  · intro hm
    obtain ⟨p, hp, hk⟩ := List.mem_map.mp hm
    have := (List.mem_filter.mp hp).2
    simp at this
    exact this hk
  · exact hn.sublist ((List.filter_sublist _).map _)

/-- In a map with one entry per key, the read of a key is its entry. -/
theorem Headers.get_eq_some_iff (h : Headers) (hn : (h.map Prod.fst).Nodup) (k v : Bytes) :
    h.get k = some v ↔ (k, v) ∈ h := by
  induction h with
  | nil => simp [Headers.get]
  | cons p t ih =>
    obtain ⟨a, b⟩ := p
    rw [List.map_cons, List.nodup_cons] at hn
    simp only [Headers.get]
    by_cases ha : a = k
    · subst ha
      rw [if_pos rfl]
      constructor
      · intro hv
        cases hv
        simp
      · intro hm
        rcases List.mem_cons.mp hm with hm | hm
        · cases hm
          rfl
        · exact absurd (List.mem_map.mpr ⟨(a, v), hm, rfl⟩) hn.1
    · rw [if_neg ha, ih hn.2]
      constructor
      · intro hm
        exact List.mem_cons_of_mem _ hm
      · intro hm
        rcases List.mem_cons.mp hm with hm | hm
        · cases hm
          exact absurd rfl ha
        · exact hm

theorem parseHeaders_nodup (L : List Bytes) : ((parseHeaders L).map Prod.fst).Nodup := by
  induction L using List.reverseRecOn with
  | nil => simp [parseHeaders]
  | append_singleton L l ih =>
    rw [parseHeaders_snoc]
    split_ifs
    · exact Headers.nodup_set _ _ _ ih
    · exact ih

/-- Every entry of a parsed map has a key and a value without a colon, and a value that
is already trimmed. -/
theorem parseHeaders_entry (L : List Bytes) :
    ∀ p ∈ parseHeaders L, 58 ∉ p.1 ∧ 58 ∉ p.2 ∧ TrimSpace (32 :: p.2) = p.2 := by
  induction L using List.reverseRecOn with
  | nil =>
    intro p hp
    simp [parseHeaders] at hp
  | append_singleton L l ih =>
    rw [parseHeaders_snoc]
    by_cases hl : 58 ∈ l
    · rw [if_pos hl]
      intro p hp
      rcases Headers.mem_set hp with hp | hp
      · subst hp
        obtain ⟨a, b, hab, ha⟩ := List.eq_append_cons_of_mem hl
        refine ⟨?_, ?_, TrimSpace_space_TrimSpace _⟩
        · simp only
          rw [hab, takeWhile_ne_append 58 a b ha]
          exact ha
        · simp only
          rw [hab, ascii_colon, Split_byte_append 58 _ _ ha]
          simp only [List.drop_succ_cons, List.drop_zero, Join_Split_empty]
          intro hm
          have := mem_of_mem_TrimSpace hm
          simp at this
      · exact ih p hp
    · rw [if_neg hl]
      exact ih

/-- Parsing the line written for a canonical entry gives the entry back. -/
theorem parseHeaders_snoc_serialized (L : List Bytes) (a b : Bytes) (ha : 58 ∉ a)
    (hb : 58 ∉ b) (ht : TrimSpace (32 :: b) = b) :
    parseHeaders (L ++ [serializeHeader (a, b)]) = (parseHeaders L).set a b := by
  have hser : serializeHeader (a, b) = a ++ 58 :: (32 :: b) := by
    simp only [serializeHeader]
    have : ascii ": " = [58, 32] := by decide
    rw [this]
    simp
  have hfilter : (32 :: b).filter (fun x => x != 58) = 32 :: b := by
    rw [List.filter_eq_self]
    intro x hx
    rcases List.mem_cons.mp hx with hx | hx
    · subst hx
      decide
    · simp only [bne_iff_ne, ne_eq]
      intro e
      exact hb (e ▸ hx)
  rw [parseHeaders_snoc, hser, if_pos (by simp), takeWhile_ne_append 58 a _ ha, ascii_colon,
    Split_byte_append 58 _ _ ha]
  simp only [List.drop_succ_cons, List.drop_zero, Join_Split_empty, hfilter, ht]

/-- Parsing the lines written for a list of canonical entries with distinct keys gives
a map that holds exactly these entries. -/
theorem parseHeaders_serialized (E : Headers) (hn : (E.map Prod.fst).Nodup)
    (hc : ∀ p ∈ E, 58 ∉ p.1 ∧ 58 ∉ p.2 ∧ TrimSpace (32 :: p.2) = p.2) (k v : Bytes) :
    (parseHeaders (E.map serializeHeader)).get k = some v ↔ (k, v) ∈ E := by
  induction E using List.reverseRecOn with
  | nil => simp [parseHeaders, Headers.get]
  | append_singleton E p ih =>
    obtain ⟨a, b⟩ := p
    obtain ⟨h1, h2, h3⟩ := hc (a, b) (by simp)
    have hn' : (E.map Prod.fst).Nodup ∧ a ∉ E.map Prod.fst := by
      rw [List.map_append, List.nodup_append] at hn
      refine ⟨hn.1, ?_⟩
      intro hm
      exact hn.2.2 hm (by simp)
    have ih' := ih hn'.1 (fun p hp => hc p (by simp [hp]))
    rw [List.map_append, List.map_singleton, parseHeaders_snoc_serialized _ a b h1 h2 h3,
      Headers.get_set]
    by_cases hk : a = k
    · subst hk
      rw [if_pos rfl]
      constructor
      · intro hv
        cases hv
        simp
      · intro hm
        rcases List.mem_append.mp hm with hm | hm
        · exact absurd (List.mem_map.mpr ⟨(a, v), hm, rfl⟩) hn'.2
        · simp only [List.mem_singleton, Prod.mk.injEq, true_and] at hm
          rw [hm]
    · rw [if_neg hk, ih']
      constructor
      · intro hm
        exact List.mem_append_left _ hm
      · intro hm
        rcases List.mem_append.mp hm with hm | hm
        · exact hm
        · simp only [List.mem_singleton, Prod.mk.injEq] at hm
          exact absurd hm.1.symm hk

theorem firstIndex_append (p : Bytes → Bool) (A : List Bytes) (x : Bytes) (T : List Bytes)
    (hA : ∀ a ∈ A, p a = false) (hx : p x = true) :
    firstIndex p (A ++ x :: T) = some A.length := by
  induction A with
  | nil => simp [firstIndex, hx]
  | cons a A ih =>
    have ha : p a = false := hA a (by simp)
    have := ih (fun b hb => hA b (by simp [hb]))
    simp [firstIndex, ha, this]

/-! ## The claims -/

/-- C1 fails on the code: the method `Content-Length:99999999999999999999` contains no
space, CR or LF and the empty header list defines no `Content-Length`, but no non-empty
row follows the request line, so `startOfHeadersIndex` stays 0 and the request line
itself is parsed as the header `Content-Length`; `Atoi` returns the largest `int` for
the out-of-range digits and `body[:contentLength]` panics. The same happens in
`handleConnection` when such a request fills the 1024-byte buffer exactly. -/
theorem root_request_panics :
    32 ∉ ascii "Content-Length:99999999999999999999"
    ∧ 13 ∉ ascii "Content-Length:99999999999999999999"
    ∧ 10 ∉ ascii "Content-Length:99999999999999999999"
    ∧ (parseHeaders []).get (ascii "Content-Length") = none
    ∧ Atoi (ascii "99999999999999999999 / HTTP/1.1") = 2 ^ 63 - 1
    ∧ getRequest (ascii "Content-Length:99999999999999999999" ++ ascii " / HTTP/1.1\r\n"
          ++ Join [] (ascii "\r\n") ++ ascii "\r\n\r\n")
        = Except.error Panic.sliceBounds
    ∧ (ascii "Content-Length:" ++ List.replicate 994 57 ++ ascii " / HTTP/1.1\r\n\r\n").length
        = 1024
    ∧ responseBytes (handleConnection [] emptyFS
          (ascii "Content-Length:" ++ List.replicate 994 57 ++ ascii " / HTTP/1.1\r\n\r\n"))
        = Except.error Panic.sliceBounds := by
  refine ⟨by decide, by decide, by decide, by decide, by decide, by decide, by decide!, ?_⟩
  decide!

/-- Apart from methods that begin with `Content-Length:` the root route answers every
method: when the method has no space and no CR and does not begin with `Content-Length:`,
and the header lines have no CR and define no `Content-Length`, the request
`m / HTTP/1.1`, CRLF, the header lines joined by CRLF, CRLF CRLF is parsed to a request
with method `m`, path `/` and no content, and is answered with exactly the canned 200. -/
theorem root_request_ok (m : Bytes) (hs : List Bytes) (hm32 : 32 ∉ m) (hm13 : 13 ∉ m)
    (hmcl : ¬ (ascii "Content-Length:" <+: m))
    (hh : ∀ h ∈ hs, 13 ∉ h ∧ (parseHeaders [h]).get (ascii "Content-Length") = none) :
    ∃ req, getRequest (m ++ ascii " / HTTP/1.1\r\n" ++ Join hs (ascii "\r\n")
          ++ ascii "\r\n\r\n") = Except.ok req
      ∧ req.method = m ∧ req.path = ascii "/" ∧ req.content = none
      ∧ ∀ directoryArg fs, dispatch directoryArg fs req
          = Except.ok (ascii "HTTP/1.1 200 OK\r\n\r\n", fs) := by
  have hline : 13 ∉ m ++ ascii " / HTTP/1.1" := by
    intro hmem
    rcases List.mem_append.mp hmem with h | h
    · exact hm13 h
    · revert h
      decide
  have hraw : m ++ ascii " / HTTP/1.1\r\n" ++ Join hs (ascii "\r\n") ++ ascii "\r\n\r\n"
      = (m ++ ascii " / HTTP/1.1") ++ 13 :: 10 :: (Join hs [13, 10] ++ [13, 10, 13, 10]) := by
    have : ascii " / HTTP/1.1\r\n" = ascii " / HTTP/1.1" ++ [13, 10] := by decide
    rw [this, ascii_crlf, ascii_blank]
    simp
  have hrows : Split (m ++ ascii " / HTTP/1.1\r\n" ++ Join hs (ascii "\r\n")
      ++ ascii "\r\n\r\n") (ascii "\r\n")
      = (m ++ ascii " / HTTP/1.1") :: ((if hs = [] then [[]] else hs) ++ [[], []]) := by
    rw [hraw, ascii_crlf, Split_crlf_append _ _ hline,
      Split_joined_lines hs (fun h hmem => (hh h hmem).1)]
  obtain ⟨rawHeaders, hslice, hsub⟩ := header_slice_ok
    ((m ++ ascii " / HTTP/1.1") :: ((if hs = [] then [[]] else hs) ++ [[], []]))
  have hnone : (parseHeaders rawHeaders).get (ascii "Content-Length") = none := by
    apply parseHeaders_get_none
    intro l hl
    have hmem := hsub l hl
    rcases List.mem_cons.mp hmem with h | h
    · rw [h]
      exact requestLine_no_contentLength m hmcl
    · rcases List.mem_append.mp h with h | h
      · by_cases hnil : hs = []
        · rw [if_pos hnil] at h
          rw [List.mem_singleton.mp h]
          rfl
        · rw [if_neg hnil] at h
          exact (hh l h).2
      · have : l = [] := by simpa using h
        rw [this]
        rfl
  refine ⟨⟨m, ascii "/", getPathSteps (ascii "/"), parseHeaders rawHeaders, none⟩, ?_, rfl, rfl,
    rfl, ?_⟩
  · unfold getRequest
    simp only [hrows]
    rw [show index ((m ++ ascii " / HTTP/1.1") :: ((if hs = [] then [[]] else hs) ++ [[], []])) 0
        = Except.ok (m ++ ascii " / HTTP/1.1") from by simp [index]]
    simp only [hslice, requestContent, hnone, requestLine_tokens m hm32]
    rfl
  · intro directoryArg fs
    rw [dispatch, if_pos rfl]
    rfl

/-- The root route at `OPTIONS /` with one header line. -/
theorem root_request_ok_witness :
    ∃ req, getRequest (ascii "OPTIONS" ++ ascii " / HTTP/1.1\r\n"
          ++ Join [ascii "Host: localhost:4221"] (ascii "\r\n") ++ ascii "\r\n\r\n")
        = Except.ok req
      ∧ req.method = ascii "OPTIONS" ∧ req.path = ascii "/" ∧ req.content = none
      ∧ ∀ directoryArg fs, dispatch directoryArg fs req
          = Except.ok (ascii "HTTP/1.1 200 OK\r\n\r\n", fs) :=
  root_request_ok (ascii "OPTIONS") [ascii "Host: localhost:4221"] (by decide) (by decide)
    (by decide) (by decide)

/-- C2, as stated, fails: `a` followed by a tab contains no space, CR or LF, yet the
request with target `/echo/a<tab>` is answered with the body `a` and the declared length
1, because `getPathSteps` trims the path before it splits it. -/
theorem echo_counterexample :
    32 ∉ ascii "a\t" ∧ 13 ∉ ascii "a\t" ∧ 10 ∉ ascii "a\t"
    ∧ getRequest (ascii "GET /echo/a\t HTTP/1.1\r\n\r\n")
        = Except.ok ⟨ascii "GET", ascii "/echo/" ++ ascii "a\t", [[], ascii "echo", ascii "a"],
            [], none⟩
    ∧ responseBytes (dispatch [] emptyFS
        ⟨ascii "GET", ascii "/echo/" ++ ascii "a\t", [[], ascii "echo", ascii "a"], [], none⟩)
      = Except.ok (ascii "HTTP/1.1 200 OK\r\nContent-Type: text/plain\r\nContent-Length: "
          ++ formatInt 1 ++ ascii "\r\n\r\n" ++ ascii "a" ++ ascii "\r\n")
    ∧ responseBytes (dispatch [] emptyFS
        ⟨ascii "GET", ascii "/echo/" ++ ascii "a\t", [[], ascii "echo", ascii "a"], [], none⟩)
      ≠ Except.ok (ascii "HTTP/1.1 200 OK\r\nContent-Type: text/plain\r\nContent-Length: "
          ++ formatInt (ascii "a\t").length ++ ascii "\r\n\r\n" ++ ascii "a\t"
          ++ ascii "\r\n") := by
  decide

/-- C2, amended: a request whose target is `/echo/` followed by `rest` is answered with
the plain-text response whose text is `rest` without its trailing white space (the
segments after `echo` of the trimmed path, joined by `/`), the declared length being the
byte length of that text; the text is `rest` itself when `rest` is empty or ends in an
ASCII byte that is not white space; a target of exactly `/echo` echoes the empty
string; the digits written after `Content-Length:` are the decimal numeral of the
length. -/
theorem echo_response (directoryArg : Bytes) (fs : FileSystem) (raw : Bytes) (req : request)
    (h : getRequest raw = Except.ok req) :
    (∀ rest, req.path = ascii "/echo/" ++ rest →
        dispatch directoryArg fs req
          = Except.ok (ascii "HTTP/1.1 200 OK\r\nContent-Type: text/plain\r\nContent-Length: "
              ++ formatInt (trimRightSpace rest).length ++ ascii "\r\n\r\n"
              ++ trimRightSpace rest ++ ascii "\r\n", fs))
    ∧ (∀ rest, req.path = ascii "/echo/" ++ rest →
        (rest = [] ∨ ∃ p c, rest = p ++ [c] ∧ c < 128 ∧ isAsciiSpace c = false) →
        dispatch directoryArg fs req
          = Except.ok (ascii "HTTP/1.1 200 OK\r\nContent-Type: text/plain\r\nContent-Length: "
              ++ formatInt rest.length ++ ascii "\r\n\r\n" ++ rest ++ ascii "\r\n", fs))
    ∧ (req.path = ascii "/echo" →
        dispatch directoryArg fs req
          = Except.ok (ascii "HTTP/1.1 200 OK\r\nContent-Type: text/plain\r\nContent-Length: "
              ++ formatInt 0 ++ ascii "\r\n\r\n" ++ ascii "\r\n", fs))
    ∧ (∀ n, decimalValue (formatInt n) = n ∧ (∀ c ∈ formatInt n, isDigit c = true)
        ∧ formatInt n ≠ []) := by
  have hs := getRequest_path_steps h
  have main : ∀ rest, req.path = ascii "/echo/" ++ rest →
      dispatch directoryArg fs req
        = Except.ok (ascii "HTTP/1.1 200 OK\r\nContent-Type: text/plain\r\nContent-Length: "
            ++ formatInt (trimRightSpace rest).length ++ ascii "\r\n\r\n"
            ++ trimRightSpace rest ++ ascii "\r\n", fs) := by
    intro rest hp
    have he : ascii "/echo/" = [47, 101, 99, 104, 111, 47] := by decide
    have hroot : req.path ≠ ascii "/" := by
      rw [hp, he, ascii_slash]
      simp
    have htrim : TrimSpace (ascii "/echo/" ++ rest)
        = [] ++ 47 :: (ascii "echo" ++ 47 :: trimRightSpace rest) := by
      have h1 : ascii "/echo/" ++ rest = 47 :: ([101, 99, 104, 111] ++ 47 :: rest) := by
        rw [he]
        rfl
      have h2 : (47 :: ([101, 99, 104, 111] ++ 47 :: rest) : Bytes)
          = [47, 101, 99, 104, 111] ++ 47 :: rest := rfl
      rw [TrimSpace, h1, trimLeftSpace_slash, h2, trimRightSpace_append_slash]
      rfl
    have hsteps : req.path_steps
        = [] :: ascii "echo" :: Split (trimRightSpace rest) [47] := by
      rw [hs, hp, getPathSteps, htrim, ascii_slash, Split_byte_append 47 _ _ (by simp),
        Split_byte_append 47 _ _ (by decide)]
    have hecho : isEchoPath req.path_steps = true := by
      rw [hsteps]
      simp [isEchoPath, echoPathStart]
    have hresp : getEchoResponse req.path_steps
        = Except.ok (getResponseWithContent (trimRightSpace rest)) := by
      unfold getEchoResponse
      rw [slice_to_end _ 2 (by rw [hsteps]; simp)]
      simp only [hsteps, List.drop_succ_cons, List.drop_zero, ascii_slash, Join_Split_byte]
    rw [dispatch, if_neg hroot, hecho, if_pos rfl, hresp]
    rfl
  refine ⟨main, ?_, ?_, fun n => formatInt_spec n⟩
  · intro rest hp hrest
    have := main rest hp
    rwa [trimRightSpace_eq_self rest hrest] at this
  · intro hp
    have hroot : req.path ≠ ascii "/" := by
      rw [hp]
      decide
    have hsteps : req.path_steps = [[], ascii "echo"] := by
      rw [hs, hp]
      decide
    rw [dispatch, if_neg hroot, hsteps]
    rfl

/-- C2, amended, at `GET /echo/a/b`: the echoed text is `a/b`, the declared length 3. -/
theorem echo_response_witness :
    getRequest (ascii "GET /echo/a/b HTTP/1.1\r\n\r\n")
        = Except.ok ⟨ascii "GET", ascii "/echo/" ++ ascii "a/b",
            [[], ascii "echo", ascii "a", ascii "b"], [], none⟩
    ∧ dispatch [] emptyFS ⟨ascii "GET", ascii "/echo/" ++ ascii "a/b",
            [[], ascii "echo", ascii "a", ascii "b"], [], none⟩
      = Except.ok (ascii "HTTP/1.1 200 OK\r\nContent-Type: text/plain\r\nContent-Length: "
              ++ formatInt (ascii "a/b").length ++ ascii "\r\n\r\n" ++ ascii "a/b"
              ++ ascii "\r\n", emptyFS)
    ∧ ascii "HTTP/1.1 200 OK\r\nContent-Type: text/plain\r\nContent-Length: "
          ++ formatInt (ascii "a/b").length ++ ascii "\r\n\r\n" ++ ascii "a/b" ++ ascii "\r\n"
        = ascii ("HTTP/1.1 200 OK\r\nContent-Type: text/plain\r\n"
            ++ "Content-Length: 3\r\n\r\na/b\r\n") :=
  ⟨by decide,
   (echo_response [] emptyFS (ascii "GET /echo/a/b HTTP/1.1\r\n\r\n")
      ⟨ascii "GET", ascii "/echo/" ++ ascii "a/b", [[], ascii "echo", ascii "a", ascii "b"],
        [], none⟩ (by decide)).2.1 (ascii "a/b") rfl
      (Or.inr ⟨ascii "a/", 98, by decide, by decide, by decide⟩),
   by decide⟩

/-- C3, as stated, fails: the path `x/echo/y` is none of `/`, `/user-agent`, `/echo`,
`/files` and begins with neither `/echo/` nor `/files/`, yet the request is answered by
the echo route with body `y`, not with the canned 404. -/
theorem not_found_counterexample :
    getRequest (ascii "GET x/echo/y HTTP/1.1\r\n\r\n")
        = Except.ok ⟨ascii "GET", ascii "x/echo/y", [ascii "x", ascii "echo", ascii "y"], [],
            none⟩
    ∧ ascii "x/echo/y" ≠ ascii "/" ∧ ascii "x/echo/y" ≠ ascii "/user-agent"
    ∧ ascii "x/echo/y" ≠ ascii "/echo" ∧ ascii "x/echo/y" ≠ ascii "/files"
    ∧ ¬ (ascii "/echo/" <+: ascii "x/echo/y") ∧ ¬ (ascii "/files/" <+: ascii "x/echo/y")
    ∧ responseBytes (dispatch [] emptyFS
        ⟨ascii "GET", ascii "x/echo/y", [ascii "x", ascii "echo", ascii "y"], [], none⟩)
      = Except.ok (ascii
          "HTTP/1.1 200 OK\r\nContent-Type: text/plain\r\nContent-Length: 1\r\n\r\ny\r\n")
    ∧ responseBytes (dispatch [] emptyFS
        ⟨ascii "GET", ascii "x/echo/y", [ascii "x", ascii "echo", ascii "y"], [], none⟩)
      ≠ Except.ok (ascii "HTTP/1.1 404 Not Found\r\n\r\n") := by
  decide

/-- C3, amended: a parsed request whose path is neither `/` nor `/user-agent` and whose
second path segment (the path trimmed of white space and split on `/`, whatever the
first segment is) is absent or is neither `echo` nor `files` is answered with exactly
the canned 404. -/
theorem not_found_response (directoryArg : Bytes) (fs : FileSystem) (raw : Bytes)
    (req : request) (h : getRequest raw = Except.ok req) (hroot : req.path ≠ ascii "/")
    (hua : req.path ≠ ascii "/user-agent")
    (hecho : (getPathSteps req.path)[1]? ≠ some (ascii "echo"))
    (hfiles : (getPathSteps req.path)[1]? ≠ some (ascii "files")) :
    dispatch directoryArg fs req
      = Except.ok (ascii "HTTP/1.1 404 Not Found\r\n\r\n", fs) := by
  rw [← getRequest_path_steps h] at hecho hfiles
  have h1 : (req.path_steps[1]? == some echoPathStart) = false := by
    simpa [echoPathStart] using hecho
  have h2 : (req.path_steps[1]? == some filesPathStart) = false := by
    simpa [filesPathStart] using hfiles
  rw [dispatch, if_neg hroot]
  simp only [isEchoPath, isReadFilesPath, isWriteFilesPath, h1, h2, Bool.and_false,
    Bool.false_and, Bool.false_eq_true, if_false, if_neg hua]
  rfl

/-- C3, amended, at `GET /nothing`. -/
theorem not_found_response_witness :
    getRequest (ascii "GET /nothing HTTP/1.1\r\n\r\n")
        = Except.ok ⟨ascii "GET", ascii "/nothing", [[], ascii "nothing"], [], none⟩
    ∧ dispatch [] emptyFS ⟨ascii "GET", ascii "/nothing", [[], ascii "nothing"], [], none⟩
      = Except.ok (ascii "HTTP/1.1 404 Not Found\r\n\r\n", emptyFS) :=
  ⟨by decide,
   not_found_response [] emptyFS (ascii "GET /nothing HTTP/1.1\r\n\r\n")
     ⟨ascii "GET", ascii "/nothing", [[], ascii "nothing"], [], none⟩
     (by decide) (by decide) (by decide) (by decide) (by decide)⟩

/-- C4 fails on the code: the body `a`, CR, LF, `b` is posted with `Content-Length: 4`;
`getRequest` joins the rows after the header block with the empty string, which drops
the CRLF, and the four bytes stored are `a`, `b` and two zero bytes of the read buffer;
the following GET returns these, not the body posted. -/
theorem post_then_get_loses_crlf :
    handleTwo (ascii "/tmp") sampleFS
        (ascii "POST /files/f HTTP/1.1\r\nContent-Length: 4\r\n\r\na\r\nb")
        (ascii "GET /files/f HTTP/1.1\r\n\r\n")
      = Except.ok (ascii "HTTP/1.1 201 Created\r\n\r\n", getResponseWithFile [97, 98, 0, 0])
    ∧ getResponseWithFile [97, 98, 0, 0] ≠ getResponseWithFile (ascii "a\r\nb")
    ∧ (ascii "a\r\nb").length = 4 := by
  refine ⟨by decide!, by decide, by decide⟩

/-- C5: for a GET request whose path segment 1 is `files` and whose segment 2 is `name`,
the answer is the canned 404 when the storage directory is the empty string, the canned
404 when reading `directory/name` fails, and, when the read succeeds with the bytes `f`,
the binary response built from `f`: the status line 200, the line
`Content-Type: application/octet-stream`, `Content-Length:` with the decimal numeral of
the length of `f`, the blank line, and `f` with nothing after it. -/
theorem read_file_response (directoryArg : Bytes) (fs : FileSystem) (raw : Bytes)
    (req : request) (name : Bytes) (h : getRequest raw = Except.ok req)
    (hm : req.method = ascii "GET") (h1 : req.path_steps[1]? = some (ascii "files"))
    (h2 : req.path_steps[2]? = some name) :
    (directoryArg = [] →
        dispatch directoryArg fs req = Except.ok (ascii "HTTP/1.1 404 Not Found\r\n\r\n", fs))
    ∧ (fs.readFile (directoryArg ++ ascii "/" ++ name) = none →
        dispatch directoryArg fs req = Except.ok (ascii "HTTP/1.1 404 Not Found\r\n\r\n", fs))
    ∧ (∀ f, directoryArg ≠ [] → fs.readFile (directoryArg ++ ascii "/" ++ name) = some f →
        dispatch directoryArg fs req
          = Except.ok (ascii
              "HTTP/1.1 200 OK\r\nContent-Type: application/octet-stream\r\nContent-Length: "
              ++ formatInt f.length ++ ascii "\r\n\r\n" ++ f, fs)
          ∧ decimalValue (formatInt f.length) = f.length
          ∧ (∀ c ∈ formatInt f.length, isDigit c = true)
          ∧ formatInt f.length ≠ []) := by
  obtain ⟨hroot, hecho⟩ := files_not_root_not_echo h h1
  have hlen := length_of_getElem?_one h1
  have hread : isReadFilesPath req = true := by
    simp only [isReadFilesPath, hlen, h1, hm, filesPathStart]
    decide
  have hd : dispatch directoryArg fs req =
      match getReadFileResponse directoryArg fs req.path_steps with
      | Except.error e => Except.error e
      | Except.ok response => Except.ok (response, fs) := by
    simp only [dispatch, hroot, hecho, hread, if_true, if_false]
    simp
  rw [hd]
  simp only [getReadFileResponse, index_of_getElem? h2, getFile]
  refine ⟨?_, ?_, ?_⟩
  · intro hdir
    subst hdir
    rfl
  · intro hnone
    by_cases hdir : directoryArg.length = 0
    · simp only [hdir, if_true]; rfl
    · simp only [hdir, if_false, hnone]; rfl
  · intro f hdir hsome
    have : directoryArg.length ≠ 0 := by simpa using hdir
    simp only [this, if_false, hsome]
    exact ⟨rfl, formatInt_spec f.length⟩

/-- C5 at `GET /files/a` with the directory `/tmp`, where `/tmp/a` holds `hello`: the
response declares the length 5 and ends with the bytes `hello`. -/
theorem read_file_response_witness :
    getRequest (ascii "GET /files/a HTTP/1.1\r\n\r\n")
        = Except.ok ⟨ascii "GET", ascii "/files/a", [[], ascii "files", ascii "a"], [], none⟩
    ∧ dispatch (ascii "/tmp") sampleFS
        ⟨ascii "GET", ascii "/files/a", [[], ascii "files", ascii "a"], [], none⟩
      = Except.ok (ascii ("HTTP/1.1 200 OK\r\nContent-Type: application/octet-stream\r\n"
            ++ "Content-Length: 5\r\n\r\nhello"), sampleFS) :=
  ⟨by decide, by
    have hw := ((read_file_response (ascii "/tmp") sampleFS
      (ascii "GET /files/a HTTP/1.1\r\n\r\n")
      ⟨ascii "GET", ascii "/files/a", [[], ascii "files", ascii "a"], [], none⟩ (ascii "a")
      (by decide) (by decide) (by decide) (by decide)).2.2 (ascii "hello") (by decide)
      (by decide)).1
    have hb : ascii "HTTP/1.1 200 OK\r\nContent-Type: application/octet-stream\r\nContent-Length: "
          ++ formatInt (ascii "hello").length ++ ascii "\r\n\r\n" ++ ascii "hello"
        = ascii ("HTTP/1.1 200 OK\r\nContent-Type: application/octet-stream\r\n"
            ++ "Content-Length: 5\r\n\r\nhello") := by decide
    rw [hb] at hw
    exact hw⟩

/-- C6: for a POST request whose path segment 1 is `files` and whose segment 2 is
`name`, `writeFile` returns without panic, with a nil error exactly when the directory
is set and the file could be created, and the answer is the canned 201 in both cases:
the outcome of the write only decides the file system left behind. -/
theorem write_file_always_created (directoryArg : Bytes) (fs : FileSystem) (raw : Bytes)
    (req : request) (name : Bytes) (h : getRequest raw = Except.ok req)
    (hm : req.method = ascii "POST") (h1 : req.path_steps[1]? = some (ascii "files"))
    (h2 : req.path_steps[2]? = some name) :
    writeFile fs directoryArg req
        = Except.ok
          (if directoryArg ≠ [] ∧ fs.canCreate (directoryArg ++ ascii "/" ++ name) = true
            then (true, fs.write (directoryArg ++ ascii "/" ++ name) (req.content.getD []))
            else (false, fs))
    ∧ dispatch directoryArg fs req
        = Except.ok (ascii "HTTP/1.1 201 Created\r\n\r\n",
          if directoryArg ≠ [] ∧ fs.canCreate (directoryArg ++ ascii "/" ++ name) = true
            then fs.write (directoryArg ++ ascii "/" ++ name) (req.content.getD [])
            else fs) := by
  obtain ⟨hroot, hecho⟩ := files_not_root_not_echo h h1
  have hlen := length_of_getElem?_one h1
  have hread : isReadFilesPath req = false := by
    simp only [isReadFilesPath, hlen, h1, hm, filesPathStart]
    decide
  have hwrite : isWriteFilesPath req = true := by
    simp only [isWriteFilesPath, hlen, h1, hm, filesPathStart]
    decide
  have hw : writeFile fs directoryArg req
      = Except.ok
        (if directoryArg ≠ [] ∧ fs.canCreate (directoryArg ++ ascii "/" ++ name) = true
          then (true, fs.write (directoryArg ++ ascii "/" ++ name) (req.content.getD []))
          else (false, fs)) := by
    simp only [writeFile, index_of_getElem? h2]
    by_cases hdir : directoryArg = []
    · subst hdir
      rw [if_pos (by rfl : ([] : Bytes).length = 0), if_neg (fun hh => hh.1 rfl)]
    · have hl : directoryArg.length ≠ 0 := by simpa using hdir
      rw [if_neg hl]
      by_cases hc : fs.canCreate (directoryArg ++ ascii "/" ++ name) = true
      · rw [if_pos hc, if_pos ⟨hdir, hc⟩]
      · rw [if_neg hc, if_neg (fun hh => hc hh.2)]
  refine ⟨hw, ?_⟩
  simp only [dispatch, if_neg hroot, hecho, hread, hwrite, hw, Bool.false_eq_true, if_false,
    if_true]
  by_cases hc : directoryArg ≠ [] ∧ fs.canCreate (directoryArg ++ ascii "/" ++ name) = true
  · rw [if_pos hc, if_pos hc]
    rfl
  · rw [if_neg hc, if_neg hc]
    rfl

/-- C6 at `POST /files/a` with no storage directory: the write fails, the answer is
201. -/
theorem write_file_always_created_witness :
    getRequest (ascii "POST /files/a HTTP/1.1\r\nContent-Length: 2\r\n\r\nhi")
        = Except.ok ⟨ascii "POST", ascii "/files/a", [[], ascii "files", ascii "a"],
            [(ascii "Content-Length", ascii "2")], some (ascii "hi")⟩
    ∧ responseBytes (dispatch [] emptyFS
        ⟨ascii "POST", ascii "/files/a", [[], ascii "files", ascii "a"],
            [(ascii "Content-Length", ascii "2")], some (ascii "hi")⟩)
      = Except.ok (ascii "HTTP/1.1 201 Created\r\n\r\n") :=
  ⟨by decide,
   by
    rw [(write_file_always_created [] emptyFS
      (ascii "POST /files/a HTTP/1.1\r\nContent-Length: 2\r\n\r\nhi")
      ⟨ascii "POST", ascii "/files/a", [[], ascii "files", ascii "a"],
            [(ascii "Content-Length", ascii "2")], some (ascii "hi")⟩ (ascii "a")
      (by decide) (by decide) (by decide) (by decide)).2]
    rfl⟩

/-- C7: a request with path `/user-agent` is answered with the plain-text response for
`v` when the header map holds the key `User-Agent` (this exact spelling) with value `v`,
and with the zero-length byte sequence when the map has no such key; the digits written
after `Content-Length:` are the decimal numeral of the byte length of `v`. -/
theorem user_agent_response (directoryArg : Bytes) (fs : FileSystem) (raw : Bytes)
    (req : request) (h : getRequest raw = Except.ok req)
    (hp : req.path = ascii "/user-agent") :
    (∀ v, req.headers.get (ascii "User-Agent") = some v →
        dispatch directoryArg fs req
          = Except.ok (ascii "HTTP/1.1 200 OK\r\nContent-Type: text/plain\r\nContent-Length: "
              ++ formatInt v.length ++ ascii "\r\n\r\n" ++ v ++ ascii "\r\n", fs))
    ∧ (req.headers.get (ascii "User-Agent") = none →
        dispatch directoryArg fs req = Except.ok ([], fs))
    ∧ (∀ n, decimalValue (formatInt n) = n ∧ (∀ c ∈ formatInt n, isDigit c = true)
        ∧ formatInt n ≠ []) := by
  have hs := getRequest_path_steps h
  rw [hp, getPathSteps_userAgent] at hs
  have hroot : req.path ≠ ascii "/" := by
    rw [hp]
    decide
  have hecho : isEchoPath req.path_steps = false := by
    rw [hs]
    decide
  have hread : isReadFilesPath req = false := by
    have : ([[], ascii "user-agent"][1]? == some filesPathStart) = false := by decide
    simp only [isReadFilesPath, hs, this, Bool.and_false, Bool.false_and]
  have hwrite : isWriteFilesPath req = false := by
    have : ([[], ascii "user-agent"][1]? == some filesPathStart) = false := by decide
    simp only [isWriteFilesPath, hs, this, Bool.and_false, Bool.false_and]
  have hd : dispatch directoryArg fs req
      = Except.ok (getUserAgentResponse req.headers, fs) := by
    rw [dispatch, if_neg hroot, hecho, hread, hwrite, if_pos hp]
    simp only [Bool.false_eq_true, if_false]
  rw [hd]
  refine ⟨?_, ?_, fun n => formatInt_spec n⟩
  · intro v hv
    simp only [getUserAgentResponse, hv, getResponseWithContent]
  · intro hnone
    simp only [getUserAgentResponse, hnone]

/-- C7 at a request that carries `User-Agent: foo/1.0`: the body is `foo/1.0` and the
declared length is 7. -/
theorem user_agent_response_witness :
    getRequest (ascii "GET /user-agent HTTP/1.1\r\nUser-Agent: foo/1.0\r\n\r\n")
        = Except.ok ⟨ascii "GET", ascii "/user-agent", [[], ascii "user-agent"],
            [(ascii "User-Agent", ascii "foo/1.0")], none⟩
    ∧ dispatch [] emptyFS ⟨ascii "GET", ascii "/user-agent", [[], ascii "user-agent"],
            [(ascii "User-Agent", ascii "foo/1.0")], none⟩
      = Except.ok (ascii "HTTP/1.1 200 OK\r\nContent-Type: text/plain\r\nContent-Length: "
              ++ formatInt 7 ++ ascii "\r\n\r\n" ++ ascii "foo/1.0" ++ ascii "\r\n", emptyFS)
    ∧ ascii "HTTP/1.1 200 OK\r\nContent-Type: text/plain\r\nContent-Length: "
          ++ formatInt 7 ++ ascii "\r\n\r\n" ++ ascii "foo/1.0" ++ ascii "\r\n"
        = ascii ("HTTP/1.1 200 OK\r\nContent-Type: text/plain\r\n"
            ++ "Content-Length: 7\r\n\r\nfoo/1.0\r\n") :=
  ⟨by decide,
   (user_agent_response [] emptyFS
      (ascii "GET /user-agent HTTP/1.1\r\nUser-Agent: foo/1.0\r\n\r\n")
      ⟨ascii "GET", ascii "/user-agent", [[], ascii "user-agent"],
            [(ascii "User-Agent", ascii "foo/1.0")], none⟩ (by decide) (by decide)).1
      (ascii "foo/1.0") (by decide),
   by decide⟩

/-- C9, as stated, fails: for the text `hi` the header block declares the length 2 while
4 bytes follow the blank line, the text and one CRLF. -/
theorem declared_length_counterexample :
    (Cut (ascii "\r\n\r\n") (getResponseWithContent (ascii "hi"))).bind
        (fun p => declaredContentLength p.1) = some 2
    ∧ (Cut (ascii "\r\n\r\n") (getResponseWithContent (ascii "hi"))).map
        (fun p => p.2.length) = some 4
    ∧ (Cut (ascii "\r\n\r\n") (getResponseWithContent (ascii "hi"))).bind
        (fun p => declaredContentLength p.1)
      ≠ (Cut (ascii "\r\n\r\n") (getResponseWithContent (ascii "hi"))).map
        (fun p => p.2.length) := by
  decide

/-- C9, amended: for every string `s` the plain-text response declares the byte length
of `s`, and the bytes that follow the blank line ending the header block are `s`
followed by one CRLF, two bytes more than the declared length. -/
theorem declared_length_plain_text (s : Bytes) :
    (Cut (ascii "\r\n\r\n") (getResponseWithContent s)).bind
        (fun p => declaredContentLength p.1) = some s.length
    ∧ (Cut (ascii "\r\n\r\n") (getResponseWithContent s)).map (fun p => p.2)
        = some (s ++ ascii "\r\n")
    ∧ (Cut (ascii "\r\n\r\n") (getResponseWithContent s)).map (fun p => p.2.length)
        = some (s.length + 2) := by
  rw [plain_text_cut]
  refine ⟨plain_text_declared s, rfl, ?_⟩
  simp only [Option.map_some', List.length_append]
  rfl

/-- C10: the request `GET` followed by a blank line has a one-token request line; reading
`firstRowContents[1]` panics with an index out of range, in `getRequest` called on the
text and in `handleConnection` called on the bytes read into the 1024-byte buffer. -/
theorem single_token_request_line_panics :
    getRequest (ascii "GET\r\n\r\n") = Except.error Panic.indexOutOfRange
    ∧ responseBytes (handleConnection [] emptyFS (ascii "GET\r\n\r\n"))
        = Except.error Panic.indexOutOfRange := by
  constructor
  · decide
  · decide!

/-- C11 fails on the code: for the line `Host: localhost:4221` the key is `Host`, but the
value is rebuilt with `Join(splitHeader[1:], "")`, which drops the second colon: the map
holds `localhost4221`, not `localhost:4221`. -/
theorem header_value_loses_colons :
    Contains (ascii "Host: localhost:4221") (ascii ":") = true
    ∧ parseHeaders [ascii "Host: localhost:4221"] = [(ascii "Host", ascii "localhost4221")]
    ∧ (parseHeaders [ascii "Host: localhost:4221"]).get (ascii "Host")
        ≠ some (ascii "localhost:4221") := by
  decide

/-- C12: for every list of lines `L` and every key `k`: `k` is in `parseHeaders(L)` if
and only if some line of `L` that contains a colon has `k` as its text before the first
colon; the stored value is then the one `parseHeaders` derives from the last such line;
lines that are empty or contain no colon never change the result; and the empty list
gives the empty map (the function is total, it has no failure mode). -/
theorem parse_headers_last_wins (L : List Bytes) (k : Bytes) :
    ((parseHeaders L).get k ≠ none
        ↔ ∃ l ∈ L, 58 ∈ l ∧ l.takeWhile (fun x => x != 58) = k)
    ∧ (∀ L1 l L2, L = L1 ++ l :: L2 → 58 ∈ l → l.takeWhile (fun x => x != 58) = k →
        (∀ l2 ∈ L2, 58 ∈ l2 → l2.takeWhile (fun x => x != 58) ≠ k) →
        (parseHeaders L).get k = (parseHeaders [l]).get k
        ∧ (parseHeaders L).get k
            = some (TrimSpace (Join ((Split l (ascii ":")).drop 1) [])))
    ∧ parseHeaders (L.filter (fun l => decide (l ≠ [] ∧ 58 ∈ l))) = parseHeaders L
    ∧ parseHeaders [] = [] := by
  refine ⟨parseHeaders_mem_iff L k, ?_, parseHeaders_filter L, rfl⟩
  intro L1 l L2 hL hl hk hlast
  have h1 : (parseHeaders [l]).get k
      = some (TrimSpace (Join ((Split l (ascii ":")).drop 1) [])) := by
    have := parseHeaders_snoc [] l
    rw [List.nil_append, if_pos hl] at this
    rw [this, Headers.get_set, if_pos hk]
  have h2 : (parseHeaders L).get k
      = some (TrimSpace (Join ((Split l (ascii ":")).drop 1) [])) := by
    have hL' : L = (L1 ++ [l]) ++ L2 := by simp [hL]
    rw [hL', parseHeaders_get_append _ _ _ hlast, parseHeaders_snoc, if_pos hl,
      Headers.get_set, if_pos hk]
  exact ⟨by rw [h1, h2], h2⟩

/-- C12 on three lines: `a` is defined twice and the second line has no colon. -/
theorem parse_headers_last_wins_witness :
    (parseHeaders [ascii "a: 1", ascii "junk", ascii "a: 2"]).get (ascii "a")
        = (parseHeaders [ascii "a: 2"]).get (ascii "a")
    ∧ (parseHeaders [ascii "a: 1", ascii "junk", ascii "a: 2"]).get (ascii "a")
        = some (TrimSpace (Join ((Split (ascii "a: 2") (ascii ":")).drop 1) [])) :=
  (parse_headers_last_wins [ascii "a: 1", ascii "junk", ascii "a: 2"] (ascii "a")).2.1
    [ascii "a: 1", ascii "junk"] (ascii "a: 2") [] (by decide) (by decide) (by decide)
    (by decide)

/-- C13: let `M = parseHeaders(L)` and let the lines `key: value` be written for the
entries of `M`, one per entry, in any order `E`; parsing these lines gives the map `M`
back: every key reads the same in both, and both hold the same entries. -/
theorem reparse_serialized (L : List Bytes) (E : Headers) (hE : E.Perm (parseHeaders L)) :
    (∀ k, (parseHeaders (E.map serializeHeader)).get k = (parseHeaders L).get k)
    ∧ (parseHeaders (E.map serializeHeader)).Perm (parseHeaders L) := by
  have hn : (E.map Prod.fst).Nodup :=
    (hE.map Prod.fst).nodup_iff.mpr (parseHeaders_nodup L)
  have hc : ∀ p ∈ E, 58 ∉ p.1 ∧ 58 ∉ p.2 ∧ TrimSpace (32 :: p.2) = p.2 :=
    fun p hp => parseHeaders_entry L p (hE.subset hp)
  have hget : ∀ k v, (parseHeaders (E.map serializeHeader)).get k = some v
      ↔ (parseHeaders L).get k = some v := by
    intro k v
    rw [parseHeaders_serialized E hn hc, Headers.get_eq_some_iff _ (parseHeaders_nodup L),
      hE.mem_iff]
  constructor
  · intro k
    apply Option.ext
    intro v
    simp only [Option.mem_def]
    exact hget k v
  · rw [List.perm_ext_iff_of_nodup (List.Nodup.of_map _ (parseHeaders_nodup _))
      (List.Nodup.of_map _ (parseHeaders_nodup _))]
    intro p
    obtain ⟨k, v⟩ := p
    rw [← Headers.get_eq_some_iff _ (parseHeaders_nodup _),
      ← Headers.get_eq_some_iff _ (parseHeaders_nodup _)]
    exact hget k v

/-- C13 on two header lines, the entries written back in the order of the lines, which
is the reverse of their order in the map. -/
theorem reparse_serialized_witness :
    List.Perm [(ascii "Host", ascii "localhost4221"), (ascii "User-Agent", ascii "foo/1.0")]
        (parseHeaders [ascii "Host: localhost:4221", ascii "User-Agent: foo/1.0"])
    ∧ (∀ k, (parseHeaders ([(ascii "Host", ascii "localhost4221"),
          (ascii "User-Agent", ascii "foo/1.0")].map serializeHeader)).get k
        = (parseHeaders [ascii "Host: localhost:4221", ascii "User-Agent: foo/1.0"]).get k) :=
  ⟨by decide,
   (reparse_serialized [ascii "Host: localhost:4221", ascii "User-Agent: foo/1.0"]
     [(ascii "Host", ascii "localhost4221"), (ascii "User-Agent", ascii "foo/1.0")]
     (by decide)).1⟩

/-- C14: for every path that starts with `/` the list `getPathSteps(path)` is non-empty
and its first element is the empty string; hence every request returned by `getRequest`
whose path starts with `/` has `path_steps[0]` equal to the empty string. -/
theorem path_steps_first_empty :
    (∀ s : Bytes, getPathSteps (ascii "/" ++ s) ≠ []
        ∧ (getPathSteps (ascii "/" ++ s))[0]? = some [])
    ∧ (∀ (raw : Bytes) (req : request) (s : Bytes), getRequest raw = Except.ok req →
        req.path = ascii "/" ++ s → req.path_steps[0]? = some []) := by
  constructor
  · intro s
    rw [getPathSteps_slash]
    simp
  · intro raw req s h hp
    rw [getRequest_path_steps h, hp, getPathSteps_slash]
    simp

/-- C14 at `GET /echo/a`. -/
theorem path_steps_first_empty_witness :
    getRequest (ascii "GET /echo/a HTTP/1.1\r\n\r\n")
        = Except.ok ⟨ascii "GET", ascii "/" ++ ascii "echo/a", [[], ascii "echo", ascii "a"],
            [], none⟩
    ∧ ([[], ascii "echo", ascii "a"] : List Bytes)[0]? = some [] :=
  ⟨by decide,
   path_steps_first_empty.2 (ascii "GET /echo/a HTTP/1.1\r\n\r\n")
     ⟨ascii "GET", ascii "/" ++ ascii "echo/a", [[], ascii "echo", ascii "a"], [], none⟩
     (ascii "echo/a") (by decide) rfl⟩

/-- C15 fails on the code: the value `abc` of `Content-Length` does not parse as an
integer (`Atoi` reports a syntax error), but the error is discarded: `getRequest` reports
no error and returns a request whose body is present, the empty byte sequence; over the
wire the request is answered with 201 and leaves an empty file behind. -/
theorem non_numeric_length_accepted :
    AtoiErr (ascii "abc") = (0, some NumError.invalid)
    ∧ getRequest (ascii "POST /files/f HTTP/1.1\r\nContent-Length: abc\r\n\r\nhello")
        = Except.ok ⟨ascii "POST", ascii "/files/f", [[], ascii "files", ascii "f"],
            [(ascii "Content-Length", ascii "abc")], some []⟩
    ∧ handleTwo (ascii "/tmp") sampleFS
        (ascii "POST /files/f HTTP/1.1\r\nContent-Length: abc\r\n\r\nhello")
        (ascii "GET /files/f HTTP/1.1\r\n\r\n")
      = Except.ok (ascii "HTTP/1.1 201 Created\r\n\r\n", getResponseWithFile []) := by
  refine ⟨by decide, by decide, ?_⟩
  decide!

/-- What `getRequest` does with `Content-Length` when it returns: the body is absent
exactly when the parsed headers have no such key; when the key is present the body is
present and its length is the value `strconv.Atoi` gives for the header value, the
conversion error being dropped, so that a value that does not parse counts as 0 and
yields a present, empty body. -/
theorem content_present_iff_header (raw : Bytes) (req : request)
    (h : getRequest raw = Except.ok req) :
    (req.content = none ↔ req.headers.get (ascii "Content-Length") = none)
    ∧ (∀ v, req.headers.get (ascii "Content-Length") = some v →
        0 ≤ Atoi v ∧ ∃ c, req.content = some c ∧ (c.length : Int) = Atoi v)
    ∧ (∀ v, req.headers.get (ascii "Content-Length") = some v →
        (AtoiErr v).2 = some NumError.invalid → req.content = some []) := by
  obtain ⟨rows, stop, hc⟩ := getRequest_content h
  obtain ⟨h1, h2⟩ := requestContent_ok hc
  refine ⟨h1, h2, ?_⟩
  intro v hv hinv
  obtain ⟨-, c, hc, hlen⟩ := h2 v hv
  rw [Atoi_invalid v hinv] at hlen
  have : c = [] := by
    apply List.eq_nil_of_length_eq_zero
    exact_mod_cast hlen
  rw [hc, this]

/-- The body of a request with `Content-Length: 2` and the text `hi`. -/
theorem content_present_iff_header_witness :
    getRequest (ascii "POST /files/a HTTP/1.1\r\nContent-Length: 2\r\n\r\nhi")
        = Except.ok ⟨ascii "POST", ascii "/files/a", [[], ascii "files", ascii "a"],
            [(ascii "Content-Length", ascii "2")], some (ascii "hi")⟩
    ∧ 0 ≤ Atoi (ascii "2")
    ∧ ∃ c, some (ascii "hi") = some c ∧ (c.length : Int) = Atoi (ascii "2") :=
  ⟨by decide,
   (content_present_iff_header
      (ascii "POST /files/a HTTP/1.1\r\nContent-Length: 2\r\n\r\nhi")
      ⟨ascii "POST", ascii "/files/a", [[], ascii "files", ascii "a"],
        [(ascii "Content-Length", ascii "2")], some (ascii "hi")⟩ (by decide)).2.1
      (ascii "2") (by decide)⟩

/-- C16 fails on the code: the request declares `Content-Length: 5000` and carries the
two bytes `hi`; `body[:contentLength]` is evaluated without a check and panics with
slice bounds out of range, in `getRequest` on the text and in `handleConnection` on the
1024-byte buffer; no error is reported. -/
theorem short_body_panics :
    getRequest (ascii "POST /files/f HTTP/1.1\r\nContent-Length: 5000\r\n\r\nhi")
        = Except.error Panic.sliceBounds
    ∧ responseBytes (handleConnection (ascii "/tmp") sampleFS
          (ascii "POST /files/f HTTP/1.1\r\nContent-Length: 5000\r\n\r\nhi"))
        = Except.error Panic.sliceBounds := by
  constructor
  · decide
  · decide!

/-- C17 fails on the code: in `GET /a:b HTTP/1.1` followed by a blank line no non-empty
row follows the request line, `startOfHeadersIndex` stays 0, the rows handed to
`parseHeaders` are `requestRows[0:1]`, the request line, and the header map holds the key
`GET /a`. Over the wire, a request that fills the 1024-byte buffer and whose method
begins with `User-Agent:` gets its own request line echoed by the user-agent route. -/
theorem request_line_parsed_as_header :
    Split (ascii "GET /a:b HTTP/1.1\r\n\r\n") (ascii "\r\n") = [ascii "GET /a:b HTTP/1.1", [], []]
    ∧ startOfHeadersIndex [ascii "GET /a:b HTTP/1.1", [], []] = 0
    ∧ endOfHeadersIndex [ascii "GET /a:b HTTP/1.1", [], []] 0 = 1
    ∧ slice [ascii "GET /a:b HTTP/1.1", [], []] 0 1 = Except.ok [ascii "GET /a:b HTTP/1.1"]
    ∧ getRequest (ascii "GET /a:b HTTP/1.1\r\n\r\n")
        = Except.ok ⟨ascii "GET", ascii "/a:b", [[], ascii "a:b"],
            [(ascii "GET /a", ascii "b HTTP/1.1")], none⟩
    ∧ (ascii "User-Agent:" ++ List.replicate 988 120
          ++ ascii " /user-agent HTTP/1.1\r\n\r\n").length = 1024
    ∧ responseBytes (handleConnection [] emptyFS
          (ascii "User-Agent:" ++ List.replicate 988 120
            ++ ascii " /user-agent HTTP/1.1\r\n\r\n"))
        = Except.ok (getResponseWithContent
            (List.replicate 988 120 ++ ascii " /user-agent HTTP/1.1")) := by
  refine ⟨by decide, by decide, by decide, by decide, by decide, by decide!, ?_⟩
  decide!

/-- When a non-empty row does follow the request line, the rows handed to `parseHeaders`
are the ones from the first non-empty row after the request line up to, and excluding,
the first empty row after it: for rows `r0`, empty rows `E`, non-empty rows `b :: B`, an
empty row and any rows `T`, the header slice is `b :: B`. -/
theorem header_block (r0 : Bytes) (E : List Bytes) (b : Bytes) (B T : List Bytes)
    (hE : ∀ e ∈ E, e = []) (hb : b ≠ []) (hB : ∀ x ∈ B, x ≠ []) :
    startOfHeadersIndex (r0 :: (E ++ b :: (B ++ [] :: T))) = E.length + 1
    ∧ endOfHeadersIndex (r0 :: (E ++ b :: (B ++ [] :: T))) (E.length + 1)
        = E.length + 1 + (B.length + 1)
    ∧ slice (r0 :: (E ++ b :: (B ++ [] :: T))) (E.length + 1) (E.length + 1 + (B.length + 1))
        = Except.ok (b :: B) := by
  have h1 : startOfHeadersIndex (r0 :: (E ++ b :: (B ++ [] :: T))) = E.length + 1 := by
    unfold startOfHeadersIndex
    rw [List.drop_succ_cons, List.drop_zero,
      firstIndex_append _ E b _ (by intro a ha; simp [hE a ha]) (by simpa using hb)]
  have hdrop : (r0 :: (E ++ b :: (B ++ [] :: T))).drop (E.length + 1)
      = (b :: B) ++ [] :: T := by
    rw [List.drop_succ_cons, List.drop_left]
    rfl
  have h2 : endOfHeadersIndex (r0 :: (E ++ b :: (B ++ [] :: T))) (E.length + 1)
      = E.length + 1 + (B.length + 1) := by
    unfold endOfHeadersIndex
    rw [hdrop, firstIndex_append _ (b :: B) [] T
      (by
        intro a ha
        rcases List.mem_cons.mp ha with ha | ha
        · simpa [ha] using hb
        · simpa using hB a ha)
      (by rfl)]
    simp only [List.length_cons]
    omega
  refine ⟨h1, h2, ?_⟩
  unfold slice
  rw [if_pos (by
    constructor
    · omega
    · simp only [List.length_cons, List.length_append]
      omega), hdrop]
  congr 1
  have : E.length + 1 + (B.length + 1) - (E.length + 1) = (b :: B).length := by
    simp only [List.length_cons]
    omega
  rw [this, List.take_left]

/-- The header block of a request with one blank row before its two header lines. -/
theorem header_block_witness :
    slice (ascii "GET / HTTP/1.1" :: ([[]] ++ ascii "A: 1" :: ([ascii "B: 2"] ++ [] :: [ascii "x"])))
        (([[]] : List Bytes).length + 1)
        (([[]] : List Bytes).length + 1 + (([ascii "B: 2"] : List Bytes).length + 1))
      = Except.ok (ascii "A: 1" :: [ascii "B: 2"]) :=
  (header_block (ascii "GET / HTTP/1.1") [[]] (ascii "A: 1") [ascii "B: 2"] [ascii "x"]
    (by decide) (by decide) (by decide)).2.2

/-- C18: for every request returned by `getRequest` at most one of the five route
predicates holds: `path == "/"`, `isEchoPath`, `isReadFilesPath`, `isWriteFilesPath`,
`path == "/user-agent"`. -/
theorem at_most_one_route (raw : Bytes) (req : request) (h : getRequest raw = Except.ok req) :
    [decide (req.path = ascii "/"), isEchoPath req.path_steps, isReadFilesPath req,
      isWriteFilesPath req, decide (req.path = ascii "/user-agent")].count true ≤ 1 := by
  have hs := getRequest_path_steps h
  by_cases hroot : req.path = ascii "/"
  · rw [hroot, getPathSteps_root] at hs
    have he : isEchoPath req.path_steps = false := by rw [hs]; decide
    have hf : (([[], []] : List Bytes)[1]? == some filesPathStart) = false := by decide
    have hr : isReadFilesPath req = false := by
      simp only [isReadFilesPath, hs, hf, Bool.and_false, Bool.false_and]
    have hw : isWriteFilesPath req = false := by
      simp only [isWriteFilesPath, hs, hf, Bool.and_false, Bool.false_and]
    have hu : decide (req.path = ascii "/user-agent") = false := by
      rw [hroot]; decide
    rw [he, hr, hw, hu]
    cases decide (req.path = ascii "/") <;> simp
  · by_cases hua : req.path = ascii "/user-agent"
    · rw [hua, getPathSteps_userAgent] at hs
      have he : isEchoPath req.path_steps = false := by rw [hs]; decide
      have hf : (([[], ascii "user-agent"] : List Bytes)[1]? == some filesPathStart)
          = false := by decide
      have hr : isReadFilesPath req = false := by
        simp only [isReadFilesPath, hs, hf, Bool.and_false, Bool.false_and]
      have hw : isWriteFilesPath req = false := by
        simp only [isWriteFilesPath, hs, hf, Bool.and_false, Bool.false_and]
      rw [he, hr, hw]
      have h1 : decide (req.path = ascii "/") = false := by simpa using hroot
      rw [h1]
      cases decide (req.path = ascii "/user-agent") <;> simp
    · have h1 : decide (req.path = ascii "/") = false := by simpa using hroot
      have h2 : decide (req.path = ascii "/user-agent") = false := by simpa using hua
      rw [h1, h2]
      have hef : isEchoPath req.path_steps = true →
          (req.path_steps[1]? == some filesPathStart) = false := by
        intro he
        simp only [isEchoPath, Bool.and_eq_true, beq_iff_eq] at he
        rw [he.2]
        decide
      have hgp : (req.method == ascii "GET") = true → (req.method == ascii "POST") = false := by
        intro hg
        rw [beq_iff_eq] at hg
        rw [hg]
        decide
      cases he : isEchoPath req.path_steps
      · cases hr : isReadFilesPath req
        · cases hw : isWriteFilesPath req <;> simp
        · have hw : isWriteFilesPath req = false := by
            simp only [isReadFilesPath, Bool.and_eq_true] at hr
            simp only [isWriteFilesPath, hgp hr.2, Bool.and_false]
          rw [hw]
          simp
      · have hr : isReadFilesPath req = false := by
          simp only [isReadFilesPath, hef he, Bool.and_false, Bool.false_and]
        have hw : isWriteFilesPath req = false := by
          simp only [isWriteFilesPath, hef he, Bool.and_false, Bool.false_and]
        rw [hr, hw]
        simp

/-- C18 at `GET /files/a`, where only the read-file predicate holds. -/
theorem at_most_one_route_witness :
    getRequest (ascii "GET /files/a HTTP/1.1\r\n\r\n")
        = Except.ok ⟨ascii "GET", ascii "/files/a", [[], ascii "files", ascii "a"], [], none⟩
    ∧ [decide (ascii "/files/a" = ascii "/"), isEchoPath [[], ascii "files", ascii "a"],
        isReadFilesPath ⟨ascii "GET", ascii "/files/a", [[], ascii "files", ascii "a"], [],
          none⟩,
        isWriteFilesPath ⟨ascii "GET", ascii "/files/a", [[], ascii "files", ascii "a"], [],
          none⟩,
        decide (ascii "/files/a" = ascii "/user-agent")].count true ≤ 1 :=
  ⟨by decide,
   at_most_one_route (ascii "GET /files/a HTTP/1.1\r\n\r\n")
     ⟨ascii "GET", ascii "/files/a", [[], ascii "files", ascii "a"], [], none⟩ (by decide)⟩

/-- C19 fails on the code: for `GET /files` the path steps are the empty string and
`files`, `isReadFilesPath` holds because it only asks for more than one element, and
`getReadFileResponse` reads `path_steps[2]`: index out of range. `POST /files` panics in
the same way in `writeFile` when the storage directory is set. -/
theorem files_without_name_panics :
    getRequest (ascii "GET /files HTTP/1.1\r\n\r\n")
        = Except.ok ⟨ascii "GET", ascii "/files", [[], ascii "files"], [], none⟩
    ∧ isReadFilesPath ⟨ascii "GET", ascii "/files", [[], ascii "files"], [], none⟩ = true
    ∧ responseBytes (dispatch [] emptyFS
          ⟨ascii "GET", ascii "/files", [[], ascii "files"], [], none⟩)
        = Except.error Panic.indexOutOfRange
    ∧ responseBytes (handleConnection [] emptyFS (ascii "GET /files HTTP/1.1\r\n\r\n"))
        = Except.error Panic.indexOutOfRange
    ∧ isWriteFilesPath ⟨ascii "POST", ascii "/files", [[], ascii "files"], [], none⟩ = true
    ∧ responseBytes (handleConnection (ascii "/tmp") sampleFS
          (ascii "POST /files HTTP/1.1\r\n\r\n"))
        = Except.error Panic.indexOutOfRange := by
  refine ⟨by decide, by decide, by decide, by decide!, by decide, ?_⟩
  decide!

/-- Outside the two file routes the dispatch never panics, and on the file routes it does
not when the path has a third segment: for a request that is not a read-file or
write-file request, or has at least three path steps, `dispatch` returns a response. -/
theorem dispatch_returns (directoryArg : Bytes) (fs : FileSystem) (req : request)
    (h3 : (isReadFilesPath req = true ∨ isWriteFilesPath req = true) →
      2 < req.path_steps.length) :
    ∃ r, dispatch directoryArg fs req = Except.ok r := by
  unfold dispatch
  split_ifs with hroot hecho hread hwrite hua
  · exact ⟨_, rfl⟩
  · have hlen : 2 ≤ req.path_steps.length := by
      simp only [isEchoPath, Bool.and_eq_true, decide_eq_true_eq] at hecho
      omega
    rw [getEchoResponse, slice_to_end _ 2 hlen]
    exact ⟨_, rfl⟩
  · have hlen := h3 (Or.inl hread)
    have : ∃ name, req.path_steps[2]? = some name := by
      rw [List.getElem?_eq_getElem hlen]
      exact ⟨_, rfl⟩
    obtain ⟨name, hname⟩ := this
    rw [getReadFileResponse_eq _ _ _ name hname]
    exact ⟨_, rfl⟩
  · have hlen := h3 (Or.inr hwrite)
    have : ∃ name, req.path_steps[2]? = some name := by
      rw [List.getElem?_eq_getElem hlen]
      exact ⟨_, rfl⟩
    obtain ⟨name, hname⟩ := this
    rw [writeFile_eq _ _ _ name hname]
    exact ⟨_, rfl⟩
  · exact ⟨_, rfl⟩
  · exact ⟨_, rfl⟩

/-- The dispatch of `GET /files/a` returns. -/
theorem dispatch_returns_witness :
    ∃ r, dispatch (ascii "/tmp") sampleFS
        ⟨ascii "GET", ascii "/files/a", [[], ascii "files", ascii "a"], [], none⟩
      = Except.ok r :=
  dispatch_returns (ascii "/tmp") sampleFS
    ⟨ascii "GET", ascii "/files/a", [[], ascii "files", ascii "a"], [], none⟩
    (by intro _; decide)

/-- C20: for every request returned by `getRequest` no element of `path_steps` contains
the byte `/`; so the file name `path_steps[2]` has no separator, and the only path the
read-file handler reads and the write-file handler creates is the storage directory,
one `/`, and that name. -/
theorem path_steps_without_slash (raw : Bytes) (req : request)
    (h : getRequest raw = Except.ok req) :
    (∀ s ∈ req.path_steps, 47 ∉ s)
    ∧ (∀ name, req.path_steps[2]? = some name →
        47 ∉ name
        ∧ (∀ directoryArg fs, getReadFileResponse directoryArg fs req.path_steps
            = Except.ok
              (match (if directoryArg.length = 0 then none
                  else fs.readFile (directoryArg ++ ascii "/" ++ name)) with
                | none => responseNotFoundByteArray
                | some file => getResponseWithFile file))
        ∧ (∀ directoryArg fs, writeFile fs directoryArg req
            = Except.ok
              (if directoryArg.length = 0 then (false, fs)
                else if fs.canCreate (directoryArg ++ ascii "/" ++ name) = true then
                  (true, fs.write (directoryArg ++ ascii "/" ++ name) (req.content.getD []))
                else (false, fs)))) := by
  have hs := getRequest_path_steps h
  have hall : ∀ s ∈ req.path_steps, 47 ∉ s := by
    intro s hmem
    rw [hs, getPathSteps, ascii_slash] at hmem
    exact not_mem_of_mem_Split 47 _ s hmem
  refine ⟨hall, ?_⟩
  intro name hname
  refine ⟨hall name (List.getElem?_mem hname), ?_, ?_⟩
  · intro directoryArg fs
    exact getReadFileResponse_eq directoryArg fs req.path_steps name hname
  · intro directoryArg fs
    exact writeFile_eq directoryArg fs req name hname

/-- C20 at `GET /files/a/b`: the file name is `a`, the remainder `b` is a further
segment. -/
theorem path_steps_without_slash_witness :
    getRequest (ascii "GET /files/a/b HTTP/1.1\r\n\r\n")
        = Except.ok ⟨ascii "GET", ascii "/files/a/b", [[], ascii "files", ascii "a", ascii "b"],
            [], none⟩
    ∧ ∀ s ∈ ([[], ascii "files", ascii "a", ascii "b"] : List Bytes), 47 ∉ s :=
  ⟨by decide,
   (path_steps_without_slash (ascii "GET /files/a/b HTTP/1.1\r\n\r\n")
     ⟨ascii "GET", ascii "/files/a/b", [[], ascii "files", ascii "a", ascii "b"], [], none⟩
     (by decide)).1⟩

end HttpServer
